import Mathlib

/-!
Verification of the Crypto-App encryption envelope library.

This file gives a shallow embedding, in Lean 4, of the code in
`src/lib/crypto.ts` and `src/lib/storage.ts` of the Crypto-App repository,
and proves (or refutes) the frozen claims about it.

Modelling conventions:
* Byte sequences (`Uint8Array` / `ArrayBuffer`) are `List Nat` with every
  element `< 256` where it matters (hypothesis `allBytes`).
* JavaScript strings are Lean `String`s; `TextEncoder`/`TextDecoder` are
  modelled byte-exactly (including the U+FFFD replacement behaviour of
  `TextDecoder` on invalid UTF-8, which decides claim C1).
* The platform primitives PBKDF2 (`crypto.subtle.deriveKey`) and AES-GCM
  (`crypto.subtle.encrypt/decrypt`) are not repository code; they are
  abstracted as a `Prims` structure, and theorems take as hypotheses exactly
  the contract the Web Crypto API guarantees (AEAD round-trip,
  tag-verification failure on tampering).  A concrete executable `toyPrims`
  instance is used for witnesses and counterexamples.
* `btoa`/`atob` (base64) and `JSON.stringify`/`JSON.parse` are modelled
  concretely below.
-/

/-- Byte sequences (`Uint8Array` contents). -/
abbrev Bytes := List Nat

/-- Every element is a real byte. -/
def allBytes (bs : Bytes) : Prop := ∀ b ∈ bs, b < 256

instance (bs : Bytes) : Decidable (allBytes bs) := by
  unfold allBytes; infer_instance

/-! ### Base64 (`btoa` / `atob`, and the byte-array helpers around them)

`arrayBufferToBase64` in `crypto.ts` turns bytes into a latin1 string and
applies `btoa`; `base64ToArrayBuffer` applies `atob` and reads char codes.
We model the byte-level composition directly on `List Nat` / `List Char`.
The decoder follows the forgiving-base64 used by `atob`: 4-character groups,
a final group of 2 or 3 characters allowed with or without `=` padding,
anything else rejected (whitespace tolerance is irrelevant to the claims and
omitted). -/

def b64Alphabet : List Char :=
  ['A', 'B', 'C', 'D', 'E', 'F', 'G', 'H', 'I', 'J', 'K', 'L', 'M',
   'N', 'O', 'P', 'Q', 'R', 'S', 'T', 'U', 'V', 'W', 'X', 'Y', 'Z',
   'a', 'b', 'c', 'd', 'e', 'f', 'g', 'h', 'i', 'j', 'k', 'l', 'm',
   'n', 'o', 'p', 'q', 'r', 's', 't', 'u', 'v', 'w', 'x', 'y', 'z',
   '0', '1', '2', '3', '4', '5', '6', '7', '8', '9', '+', '/']

def b64Char (n : Nat) : Char := b64Alphabet.getD n 'A'

def b64Index (c : Char) : Option Nat := b64Alphabet.findIdx? (· = c)

/-- Models `btoa` on a byte list, producing the character list of the base64 text. -/
def b64EncodeChars : List Nat → List Char
  | [] => []
  | [b0] => [b64Char (b0 / 4), b64Char (b0 % 4 * 16), '=', '=']
  | [b0, b1] => [b64Char (b0 / 4), b64Char (b0 % 4 * 16 + b1 / 16),
                 b64Char (b1 % 16 * 4), '=']
  | b0 :: b1 :: b2 :: rest =>
      b64Char (b0 / 4) :: b64Char (b0 % 4 * 16 + b1 / 16) ::
      b64Char (b1 % 16 * 4 + b2 / 64) :: b64Char (b2 % 64) ::
      b64EncodeChars rest

/-- Models `atob` on a character list, producing the decoded bytes, or `none` where
`atob` throws `InvalidCharacterError`. -/
def b64DecodeChars : List Char → Option (List Nat)
  | [] => some []
  | c0 :: c1 :: c2 :: c3 :: rest =>
      match b64Index c0, b64Index c1 with
      | some n0, some n1 =>
        if c2 = '=' then
          if c3 = '=' ∧ rest = [] then some [n0 * 4 + n1 / 16] else none
        else
          match b64Index c2 with
          | some n2 =>
            if c3 = '=' then
              if rest = [] then some [n0 * 4 + n1 / 16, n1 % 16 * 16 + n2 / 4]
              else none
            else
              match b64Index c3 with
              | some n3 =>
                (b64DecodeChars rest).map fun bs =>
                  (n0 * 4 + n1 / 16) :: (n1 % 16 * 16 + n2 / 4) ::
                  (n2 % 4 * 64 + n3) :: bs
              | none => none
          | none => none
      | _, _ => none
  | [_] => none
  | [c0, c1] =>
      match b64Index c0, b64Index c1 with
      | some n0, some n1 => some [n0 * 4 + n1 / 16]
      | _, _ => none
  | [c0, c1, c2] =>
      match b64Index c0, b64Index c1, b64Index c2 with
      | some n0, some n1, some n2 =>
          some [n0 * 4 + n1 / 16, n1 % 16 * 16 + n2 / 4]
      | _, _, _ => none

/-- Models `arrayBufferToBase64` composed with the `btoa` step. -/
def bytesToB64 (bs : Bytes) : String := String.mk (b64EncodeChars bs)

/-- Models `base64ToArrayBuffer`: `atob` then char codes; `none` models the thrown
`InvalidCharacterError`. -/
def base64ToBytes (s : String) : Option Bytes := b64DecodeChars s.data

theorem b64Index_b64Char (n : Nat) (h : n < 64) : b64Index (b64Char n) = some n := by
  revert h; revert n; decide

theorem b64Char_ne_pad (n : Nat) (h : n < 64) : b64Char n ≠ '=' := by
  revert h; revert n; decide

theorem b64DecodeChars_encode (bs : Bytes) (h : allBytes bs) :
    b64DecodeChars (b64EncodeChars bs) = some bs := by
  induction bs using b64EncodeChars.induct with
  | case1 => rfl
  | case2 b0 =>
      have h0 : b0 < 256 := h b0 (by simp)
      have e1 := b64Index_b64Char (b0 / 4) (by omega)
      have e2 := b64Index_b64Char (b0 % 4 * 16) (by omega)
      simp [b64EncodeChars, b64DecodeChars, e1, e2]
      omega
  | case3 b0 b1 =>
      have h0 : b0 < 256 := h b0 (by simp)
      have h1 : b1 < 256 := h b1 (by simp)
      have e1 := b64Index_b64Char (b0 / 4) (by omega)
      have e2 := b64Index_b64Char (b0 % 4 * 16 + b1 / 16) (by omega)
      have e3 := b64Index_b64Char (b1 % 16 * 4) (by omega)
      have ne3 := b64Char_ne_pad (b1 % 16 * 4) (by omega)
      simp [b64EncodeChars, b64DecodeChars, e1, e2, e3, ne3]
      omega
  | case4 b0 b1 b2 rest ih =>
      have h0 : b0 < 256 := h b0 (by simp)
      have h1 : b1 < 256 := h b1 (by simp)
      have h2 : b2 < 256 := h b2 (by simp)
      have hrest : allBytes rest := fun b hb => h b (by simp [hb])
      have e1 := b64Index_b64Char (b0 / 4) (by omega)
      have e2 := b64Index_b64Char (b0 % 4 * 16 + b1 / 16) (by omega)
      have e3 := b64Index_b64Char (b1 % 16 * 4 + b2 / 64) (by omega)
      have e4 := b64Index_b64Char (b2 % 64) (by omega)
      have ne3 := b64Char_ne_pad (b1 % 16 * 4 + b2 / 64) (by omega)
      have ne4 := b64Char_ne_pad (b2 % 64) (by omega)
      simp [b64EncodeChars, b64DecodeChars, e1, e2, e3, e4, ne3, ne4, ih hrest]
      omega

theorem base64ToBytes_bytesToB64 (bs : Bytes) (h : allBytes bs) :
    base64ToBytes (bytesToB64 bs) = some bs := by
  unfold base64ToBytes bytesToB64
  rw [show (String.mk (b64EncodeChars bs)).data = b64EncodeChars bs from rfl]
  exact b64DecodeChars_encode bs h

/-! ### UTF-8 (`TextEncoder` / `TextDecoder`)

`decrypt` ends with `new TextDecoder().decode(plaintextBuffer)`.  The default
`TextDecoder` does not throw on invalid UTF-8: every error emits U+FFFD
(bytes `EF BF BD`).  We model the decoded string by its UTF-8 byte sequence,
so the decoder below maps the raw plaintext bytes to the byte sequence of the
string `decrypt` returns.  Valid sequences are copied verbatim; on an invalid
byte the replacement bytes are emitted and, per the WHATWG decoder, a byte
that merely failed a continuation check is reprocessed. -/

def replacementBytes : Bytes := [0xEF, 0xBF, 0xBD]

def isCont (b : Nat) : Bool := 0x80 ≤ b && b ≤ 0xBF

def utf8DecodeReplace : Bytes → Bytes
  | [] => []
  | b :: rest =>
    if b < 0x80 then b :: utf8DecodeReplace rest
    else if 0xC2 ≤ b ∧ b ≤ 0xDF then
      match rest with
      | [] => replacementBytes
      | b1 :: rest2 =>
        if isCont b1 then b :: b1 :: utf8DecodeReplace rest2
        else replacementBytes ++ utf8DecodeReplace (b1 :: rest2)
    else if 0xE0 ≤ b ∧ b ≤ 0xEF then
      match rest with
      | [] => replacementBytes
      | b1 :: rest2 =>
        if (b = 0xE0 → 0xA0 ≤ b1) ∧ (b = 0xED → b1 ≤ 0x9F) ∧ isCont b1 then
          match rest2 with
          | [] => replacementBytes
          | b2 :: rest3 =>
            if isCont b2 then b :: b1 :: b2 :: utf8DecodeReplace rest3
            else replacementBytes ++ utf8DecodeReplace (b2 :: rest3)
        else replacementBytes ++ utf8DecodeReplace (b1 :: rest2)
    else if 0xF0 ≤ b ∧ b ≤ 0xF4 then
      match rest with
      | [] => replacementBytes
      | b1 :: rest2 =>
        if (b = 0xF0 → 0x90 ≤ b1) ∧ (b = 0xF4 → b1 ≤ 0x8F) ∧ isCont b1 then
          match rest2 with
          | [] => replacementBytes
          | b2 :: rest3 =>
            if isCont b2 then
              match rest3 with
              | [] => replacementBytes
              | b3 :: rest4 =>
                if isCont b3 then b :: b1 :: b2 :: b3 :: utf8DecodeReplace rest4
                else replacementBytes ++ utf8DecodeReplace (b3 :: rest4)
            else replacementBytes ++ utf8DecodeReplace (b2 :: rest3)
        else replacementBytes ++ utf8DecodeReplace (b1 :: rest2)
    else replacementBytes ++ utf8DecodeReplace rest

/-- The byte sequence is well-formed UTF-8 (the sequences `TextEncoder` can
produce). -/
def validUtf8 : Bytes → Bool
  | [] => true
  | b :: rest =>
    if b < 0x80 then validUtf8 rest
    else if 0xC2 ≤ b ∧ b ≤ 0xDF then
      match rest with
      | [] => false
      | b1 :: rest2 => isCont b1 && validUtf8 rest2
    else if 0xE0 ≤ b ∧ b ≤ 0xEF then
      match rest with
      | [] => false
      | b1 :: rest2 =>
        (decide (b = 0xE0 → 0xA0 ≤ b1) && decide (b = 0xED → b1 ≤ 0x9F) && isCont b1) &&
        match rest2 with
        | [] => false
        | b2 :: rest3 => isCont b2 && validUtf8 rest3
    else if 0xF0 ≤ b ∧ b ≤ 0xF4 then
      match rest with
      | [] => false
      | b1 :: rest2 =>
        (decide (b = 0xF0 → 0x90 ≤ b1) && decide (b = 0xF4 → b1 ≤ 0x8F) && isCont b1) &&
        match rest2 with
        | [] => false
        | b2 :: rest3 =>
          isCont b2 &&
          match rest3 with
          | [] => false
          | b3 :: rest4 => isCont b3 && validUtf8 rest4
    else false

theorem utf8DecodeReplace_valid (bs : Bytes) (h : validUtf8 bs = true) :
    utf8DecodeReplace bs = bs := by
  induction bs using utf8DecodeReplace.induct with
  | case1 => rfl
  | case2 b rest h1 ih =>
      rw [validUtf8.eq_def] at h
      rw [utf8DecodeReplace.eq_def]
      simp [h1] at h ⊢
      exact ih h
  | case3 b h1 h2 =>
      rw [validUtf8.eq_def] at h
      simp [h1, h2] at h
  | case4 b h1 h2 b1 rest2 hc ih =>
      rw [validUtf8.eq_def] at h
      rw [utf8DecodeReplace.eq_def]
      simp [h1, h2, hc] at h ⊢
      exact ih h
  | case5 b h1 h2 b1 rest2 hnc ih =>
      rw [validUtf8.eq_def] at h
      simp [h1, h2, hnc] at h
  | case6 b h1 h2 h3 =>
      rw [validUtf8.eq_def] at h
      simp [h1, h2, h3] at h
  | case7 b h1 h2 h3 b1 hg =>
      rw [validUtf8.eq_def] at h
      simp [h1, h2, h3] at h
  | case8 b h1 h2 h3 b1 hg b2 rest2 hc ih =>
      obtain ⟨hg1, hg2, hg3⟩ := hg
      rw [validUtf8.eq_def] at h
      rw [utf8DecodeReplace.eq_def]
      simp only [if_neg h1, if_neg h2, if_pos h3] at h ⊢
      rw [if_pos (⟨hg1, hg2, hg3⟩ :
            (b = 224 → 160 ≤ b1) ∧ (b = 237 → b1 ≤ 159) ∧ isCont b1 = true),
          if_pos hc]
      simp only [Bool.and_eq_true] at h
      rw [ih h.2.2]
  | case9 b h1 h2 h3 b1 hg b2 rest2 hnc ih =>
      rw [validUtf8.eq_def] at h
      simp [h1, h2, h3, hnc] at h
  | case10 b h1 h2 h3 b1 rest2 hng ih =>
      rw [validUtf8.eq_def] at h
      simp only [if_neg h1, if_neg h2, if_pos h3, Bool.and_eq_true,
        decide_eq_true_eq] at h
      exact absurd ⟨h.1.1.1, h.1.1.2, h.1.2⟩ hng
  | case11 b h1 h2 h3 h4 =>
      rw [validUtf8.eq_def] at h
      simp [h1, h2, h3, h4] at h
  | case12 b h1 h2 h3 h4 b1 hg =>
      rw [validUtf8.eq_def] at h
      simp [h1, h2, h3, h4] at h
  | case13 b h1 h2 h3 h4 b1 hg b2 hc =>
      rw [validUtf8.eq_def] at h
      simp [h1, h2, h3, h4] at h
  | case14 b h1 h2 h3 h4 b1 hg b2 hc b3 rest2 hc3 ih =>
      obtain ⟨hg1, hg2, hg3⟩ := hg
      rw [validUtf8.eq_def] at h
      rw [utf8DecodeReplace.eq_def]
      simp only [if_neg h1, if_neg h2, if_neg h3, if_pos h4] at h ⊢
      rw [if_pos (⟨hg1, hg2, hg3⟩ :
            (b = 240 → 144 ≤ b1) ∧ (b = 244 → b1 ≤ 143) ∧ isCont b1 = true),
          if_pos hc, if_pos hc3]
      simp only [Bool.and_eq_true] at h
      rw [ih h.2.2.2]
  | case15 b h1 h2 h3 h4 b1 hg b2 hc b3 rest2 hnc3 ih =>
      rw [validUtf8.eq_def] at h
      simp [h1, h2, h3, h4, hnc3] at h
  | case16 b h1 h2 h3 h4 b1 hg b2 rest2 hnc2 ih =>
      rw [validUtf8.eq_def] at h
      simp [h1, h2, h3, h4, hnc2] at h
  | case17 b h1 h2 h3 h4 b1 rest2 hng ih =>
      rw [validUtf8.eq_def] at h
      simp only [if_neg h1, if_neg h2, if_neg h3, if_pos h4, Bool.and_eq_true,
        decide_eq_true_eq] at h
      exact absurd ⟨h.1.1.1, h.1.1.2, h.1.2⟩ hng
  | case18 b rest h1 h2 h3 h4 ih =>
      rw [validUtf8.eq_def] at h
      simp [h1, h2, h3, h4] at h

/-! ### JavaScript string helpers -/

/-- The whitespace characters stripped by `String.prototype.trim` (ASCII
subset; the further Unicode space characters JS also strips play no role in
any claim). -/
def jsWhitespace : List Char := [' ', '\t', '\n', '\r', '\x0b', '\x0c']

/-- Models `passphrase.trim()`. -/
def jsTrim (s : String) : String :=
  String.mk (((s.data.dropWhile (· ∈ jsWhitespace)).reverse.dropWhile
    (· ∈ jsWhitespace)).reverse)

/-- Models `TextEncoder.encode` for one character (standard UTF-8). -/
def utf8EncodeChar (c : Char) : Bytes :=
  let n := c.toNat
  if n < 0x80 then [n]
  else if n < 0x800 then [0xC0 + n / 64, 0x80 + n % 64]
  else if n < 0x10000 then [0xE0 + n / 4096, 0x80 + n / 64 % 64, 0x80 + n % 64]
  else [0xF0 + n / 262144, 0x80 + n / 4096 % 64, 0x80 + n / 64 % 64, 0x80 + n % 64]

/-- Models `new TextEncoder().encode(s)`. -/
def utf8Bytes (s : String) : Bytes := (s.data.map utf8EncodeChar).flatten

/-! ### The envelope (`EncryptionPayload`) and the Encryption Engine

`iterations` is a JS `number`; the integer values relevant to the claims are
modelled as `Int`.  The Web Crypto primitives (PBKDF2 key derivation, AES-GCM
with the 128-bit tag appended to the ciphertext) are platform code, not
repository code; they are abstracted as `Prims`, and each theorem assumes of
them only what the Web Crypto specification guarantees. -/

structure EncryptionPayload where
  alg : String
  kdf : String
  salt : String
  iv : String
  iterations : Int
  ct : String
deriving DecidableEq

structure EncryptionOptions where
  iterations : Option Int := none
  algorithm : Option String := none
deriving DecidableEq

/-- Models `options.iterations || 200000` — JavaScript falsy coalescing: an absent
field or an explicit `0` both fall back to the default (`NaN`, the only other
falsy number, is outside the integer model). -/
def resolveIterations (o : EncryptionOptions) : Int :=
  match o.iterations with
  | none => 200000
  | some v => if v = 0 then 200000 else v

/-- Models `options.algorithm || 'AES-GCM'`. -/
def resolveAlgorithm (o : EncryptionOptions) : String :=
  match o.algorithm with
  | none => "AES-GCM"
  | some a => if a = "" then "AES-GCM" else a

/-- The platform cryptography: PBKDF2-SHA256 key derivation and the AES-GCM
AEAD.  `aeadEncrypt key iv plaintext` returns ciphertext-with-tag;
`aeadDecrypt` returns `none` exactly when `crypto.subtle.decrypt` throws
`OperationError` (tag verification failure). -/
structure Prims where
  deriveKey : Bytes → Bytes → Int → Bytes
  aeadEncrypt : Bytes → Bytes → Bytes → Bytes
  aeadDecrypt : Bytes → Bytes → Bytes → Option Bytes

/-- The message of the `InvalidCharacterError` thrown by `atob` on bad
base64; it contains neither of the substrings special-cased by `decrypt`'s
catch block, so `decrypt` rethrows it unchanged. -/
def invalidCharacterErrorMsg : String :=
  "The string to be decoded is not correctly encoded."

/-- The single error kind surfaced on tag-verification failure
(`AuthenticationFailed` in the specification): `crypto.subtle.decrypt` throws
`OperationError` with the message `The operation failed for an
operation-specific reason`, whose `operation-specific` substring the catch
block in `decrypt` maps to this fixed message. -/
def authenticationFailedMsg : String := "Incorrect passphrase or corrupted data"

/-- Models `encrypt` of `crypto.ts` (lines 85–126).  The fresh random `salt` (16
bytes) and `iv` (12 bytes) drawn from `crypto.getRandomValues` are passed in
explicitly; string plaintexts enter as their `TextEncoder` bytes, file
plaintexts as their raw bytes.  `isCryptoSupported()` is taken to hold (the
browser environment). -/
def encrypt (pr : Prims) (plaintextBytes : Bytes) (passphrase : String)
    (options : EncryptionOptions) (salt iv : Bytes) :
    Except String EncryptionPayload :=
  if jsTrim passphrase = "" then Except.error "Passphrase cannot be empty"
  else
    let iterations := resolveIterations options
    let algorithm := resolveAlgorithm options
    let key := pr.deriveKey (utf8Bytes passphrase) salt iterations
    let ct := pr.aeadEncrypt key iv plaintextBytes
    Except.ok { alg := algorithm, kdf := "PBKDF2", salt := bytesToB64 salt,
                iv := bytesToB64 iv, iterations := iterations,
                ct := bytesToB64 ct }

/-- Models `decrypt` of `crypto.ts` (lines 128–170).  The returned value is the byte
sequence (UTF-8) of the string produced by `new TextDecoder().decode`.  Key
derivation uses the envelope's own `iterations` and `salt`. -/
def decrypt (pr : Prims) (payload : EncryptionPayload) (passphrase : String) :
    Except String Bytes :=
  if jsTrim passphrase = "" then Except.error "Passphrase cannot be empty"
  else
    match base64ToBytes payload.salt with
    | none => Except.error invalidCharacterErrorMsg
    | some salt =>
      match base64ToBytes payload.iv with
      | none => Except.error invalidCharacterErrorMsg
      | some iv =>
        match base64ToBytes payload.ct with
        | none => Except.error invalidCharacterErrorMsg
        | some ct =>
          let key := pr.deriveKey (utf8Bytes passphrase) salt payload.iterations
          match pr.aeadDecrypt key iv ct with
          | some pt => Except.ok (utf8DecodeReplace pt)
          | none => Except.error authenticationFailedMsg

/-! ### A concrete toy instance of the platform primitives

Used only to instantiate witnesses and counterexamples: an identity
"cipher" with a two-byte checksum tag.  It satisfies the AEAD round-trip
contract exactly and rejects the particular tampered inputs used in the
witnesses. -/

def toyTag (key iv body : Bytes) : Bytes :=
  [(key.sum + 3 * iv.sum + 7 * body.sum + 11 * body.length) % 256,
   (key.sum + 5 * iv.sum + 13 * body.sum + 17 * body.length) % 256]

def toyPrims : Prims where
  deriveKey := fun pass salt iters => [(pass.sum + salt.sum + iters.natAbs) % 256]
  aeadEncrypt := fun key iv p => p ++ toyTag key iv p
  aeadDecrypt := fun key iv c =>
    if 2 ≤ c.length ∧ c.drop (c.length - 2) = toyTag key iv (c.take (c.length - 2))
    then some (c.take (c.length - 2)) else none

theorem toyPrims_roundtrip (k iv p : Bytes) :
    toyPrims.aeadDecrypt k iv (toyPrims.aeadEncrypt k iv p) = some p := by
  have hlen : (p ++ toyTag k iv p).length = p.length + 2 := by
    simp [toyTag]
  have htake : (p ++ toyTag k iv p).take p.length = p := List.take_left p _
  have hdrop : (p ++ toyTag k iv p).drop p.length = toyTag k iv p := List.drop_left p _
  show (if 2 ≤ (p ++ toyTag k iv p).length ∧
          (p ++ toyTag k iv p).drop ((p ++ toyTag k iv p).length - 2) =
            toyTag k iv ((p ++ toyTag k iv p).take ((p ++ toyTag k iv p).length - 2))
        then some ((p ++ toyTag k iv p).take ((p ++ toyTag k iv p).length - 2))
        else none) = some p
  rw [show (p ++ toyTag k iv p).length - 2 = p.length by omega]
  rw [htake, hdrop, if_pos ⟨by omega, rfl⟩]

theorem toyPrims_bytes (k iv p : Bytes) (hp : allBytes p) :
    allBytes (toyPrims.aeadEncrypt k iv p) := by
  intro b hb
  rcases List.mem_append.mp hb with h | h
  · exact hp b h
  · simp [toyTag] at h
    rcases h with h | h <;> omega

/-- Flip bit `k` of byte `i` of a byte sequence (out-of-range indices leave
the sequence unchanged). -/
def flipBit (bs : Bytes) (i k : Nat) : Bytes :=
  match bs, i with
  | [], _ => []
  | b :: rest, 0 => (b ^^^ 2 ^ k) :: rest
  | b :: rest, Nat.succ j => b :: flipBit rest j k

/-! ### Password strength (`calculatePasswordStrength`, lines 283–321)

The source computes `entropy = password.length * Math.log2(charSetSize || 1)`
in IEEE doubles, compares it against the thresholds 28/36/60/128, and returns
`Math.round(entropy)`.  Idealizing the double arithmetic as exact reals
(`Math.log2` is irrational at every charset size that is not a power of two,
so no comparison is decided by a margin a correctly-working double could
miss), the comparisons and the rounding have the exact integer
characterizations used below:
`len·log₂ c < t ↔ c^len < 2^t` and
`round (len·log₂ c) = (Nat.log 2 (c^(2·len)) + 1) / 2`.
The theorems for claims C8/C9 prove these characterizations against
`Real.logb`. -/

def hasLowercase (p : String) : Bool := p.data.any fun c => 'a' ≤ c && c ≤ 'z'

def hasUppercase (p : String) : Bool := p.data.any fun c => 'A' ≤ c && c ≤ 'Z'

def hasDigitChar (p : String) : Bool := p.data.any fun c => '0' ≤ c && c ≤ '9'

/-- Models `/[^a-zA-Z0-9]/.test(password)`. -/
def hasSymbolChar (p : String) : Bool := p.data.any fun c =>
  !(('a' ≤ c && c ≤ 'z') || ('A' ≤ c && c ≤ 'Z') || ('0' ≤ c && c ≤ '9'))

def charSetSize (p : String) : Nat :=
  (if hasLowercase p then 26 else 0) + (if hasUppercase p then 26 else 0) +
  (if hasDigitChar p then 10 else 0) + (if hasSymbolChar p then 32 else 0)

/-- Models `charSetSize || 1`. -/
def effCharSet (p : String) : Nat :=
  if charSetSize p = 0 then 1 else charSetSize p

/-- The score thresholds `entropy < 28/36/60/128`, in the exact integer form
(`entropy < t ↔ c^len < 2^t`). -/
def strengthScore (len c : Nat) : Nat :=
  if c ^ len < 2 ^ 28 then 0
  else if c ^ len < 2 ^ 36 then 1
  else if c ^ len < 2 ^ 60 then 2
  else if c ^ len < 2 ^ 128 then 3
  else 4

/-- Models `Math.round(len * Math.log2 c)` in exact integer form. -/
def entropyRounded (len c : Nat) : Nat := (Nat.log 2 (c ^ (2 * len)) + 1) / 2

def strengthFeedback (score : Nat) : String :=
  if score = 0 then "Very weak - use longer passphrase"
  else if score = 1 then "Weak - add more characters"
  else if score = 2 then "Fair - consider more complexity"
  else if score = 3 then "Strong - good passphrase"
  else "Very strong - excellent"

structure StrengthResult where
  score : Nat
  entropy : Nat
  feedback : String
deriving DecidableEq

def calculatePasswordStrength (p : String) : StrengthResult :=
  if p = "" then ⟨0, 0, "Password required"⟩
  else
    ⟨strengthScore p.length (effCharSet p),
     entropyRounded p.length (effCharSet p),
     strengthFeedback (strengthScore p.length (effCharSet p))⟩

/-! ### History store (`storage.ts`)

The store state is the parsed content of the single `localStorage` key (the
JSON round-trip through the medium is elided; the corrupt-store path of
`getHistory`, which degrades to `[]`, lives below that parse and is outside
the list-level model).  `items.sort((a, b) => b.timestamp - a.timestamp)` is
a stable descending sort by timestamp — `Array.prototype.sort` is required
to be stable — modelled by Mathlib's stable `insertionSort`. -/

structure HistoryItem where
  id : String
  name : String
  timestamp : Int
  payload : EncryptionPayload
  size : Nat
deriving DecidableEq

/-- Models `getHistory` (lines 26–39): parse and sort newest-first. -/
def getHistory (store : List HistoryItem) : List HistoryItem :=
  store.insertionSort (fun a b => b.timestamp ≤ a.timestamp)

/-- The `MAX_ITEMS` cap. -/
def maxItems : Nat := 20

/-- Models `addToHistory` (lines 44–63): read-and-sort, `unshift` the new item
(fresh `id` from `crypto.randomUUID()` and `timestamp` from `Date.now()`,
both passed in explicitly), then `slice(0, MAX_ITEMS)` and persist. -/
def addToHistory (store : List HistoryItem) (name : String)
    (payload : EncryptionPayload) (size : Nat) (id : String) (ts : Int) :
    List HistoryItem :=
  (({ id := id, name := name, timestamp := ts, payload := payload,
      size := size } : HistoryItem) :: getHistory store).take maxItems

/-- Models `removeFromHistory` (lines 68–76). -/
def removeFromHistory (store : List HistoryItem) (id : String) :
    List HistoryItem :=
  (getHistory store).filter (fun item => item.id ≠ id)

/-- Models `clearHistory` (lines 81–87). -/
def clearHistory (_store : List HistoryItem) : List HistoryItem := []

/-! ### JSON values and `parsePayload` / `encodePayload`

`parsePayload` (lines 172–204) accepts `string | object`; its parsed payload
is an untyped JS value, modelled by `JVal`.  JSON numbers are modelled as
integers (no claim involves fractional or exponent literals, which this
parser rejects); `\uXXXX` string escapes are likewise outside the model. -/

inductive JVal where
  | jstr (s : String)
  | jnum (n : Int)
  | jbool (b : Bool)
  | jnull
  | jarr (elems : List JVal)
  | jobj (fields : List (String × JVal))

/-- JavaScript truthiness of the modelled values (`undefined` is represented
by a failed field lookup). -/
def jTruthy : JVal → Bool
  | .jstr s => s != ""
  | .jnum n => n != 0
  | .jbool b => b
  | .jnull => false
  | .jarr _ => true
  | .jobj _ => true

/-- Property lookup on a JS object: the last binding of a duplicated key
wins, both in object literals and in `JSON.parse`. -/
def lookupLast (fields : List (String × JVal)) (k : String) : Option JVal :=
  fields.foldl (fun acc f => if f.1 = k then some f.2 else acc) none

/-- Models `payload.k`: `none` models `undefined` (also for non-object payloads). -/
def getField : JVal → String → Option JVal
  | .jobj fields, k => lookupLast fields k
  | _, _ => none

def fieldTruthy (v : JVal) (k : String) : Bool :=
  match getField v k with
  | some w => jTruthy w
  | none => false

/-- Models `payload.alg !== 'AES-GCM'`, negated: strict equality against a string
literal holds only for that exact string value. -/
def algIsSupported (v : JVal) : Bool :=
  match getField v "alg" with
  | some (.jstr s) => s == "AES-GCM"
  | _ => false

/-- Models `payload.kdf !== 'PBKDF2'`, negated. -/
def kdfIsSupported (v : JVal) : Bool :=
  match getField v "kdf" with
  | some (.jstr s) => s == "PBKDF2"
  | _ => false

/-- Decimal digits of a natural number. -/
def natDigits (n : Nat) : List Char :=
  if n < 10 then [Char.ofNat (48 + n)]
  else natDigits (n / 10) ++ [Char.ofNat (48 + n % 10)]
termination_by n
decreasing_by exact Nat.div_lt_self (by omega) (by omega)

def intDecChars (i : Int) : List Char :=
  if i < 0 then '-' :: natDigits i.natAbs else natDigits i.natAbs

/-- JS string coercion (template-literal interpolation) of the modelled
values, as used in the `Unsupported algorithm: ${payload.alg}` messages. -/
def jsToString : JVal → String
  | .jstr s => s
  | .jnum n => String.mk (intDecChars n)
  | .jbool b => cond b "true" "false"
  | .jnull => "null"
  | .jarr _ => ""
  | .jobj _ => "[object Object]"

def invalidFormatMsg : String :=
  "Invalid payload format. Must be valid JSON or Base64-encoded JSON."

def missingFieldsMsg : String :=
  "Payload missing required fields: alg, kdf, salt, iv, iterations, ct"

def unsupportedAlgorithmMsg (v : String) : String :=
  "Unsupported algorithm: " ++ v ++ ". Only AES-GCM is supported."

def unsupportedKdfMsg (v : String) : String :=
  "Unsupported KDF: " ++ v ++ ". Only PBKDF2 is supported."

/-- The validation half of `parsePayload` (lines 191–203): field presence is
a truthiness check, then the two identifier checks. -/
def validatePayload (payload : JVal) : Except String JVal :=
  if !(fieldTruthy payload "alg" && fieldTruthy payload "kdf" &&
       fieldTruthy payload "salt" && fieldTruthy payload "iv" &&
       fieldTruthy payload "iterations" && fieldTruthy payload "ct") then
    Except.error missingFieldsMsg
  else if !algIsSupported payload then
    Except.error (unsupportedAlgorithmMsg
      (jsToString ((getField payload "alg").getD JVal.jnull)))
  else if !kdfIsSupported payload then
    Except.error (unsupportedKdfMsg
      (jsToString ((getField payload "kdf").getD JVal.jnull)))
  else Except.ok payload

/-- Models `parsePayload` on an already-parsed object input. -/
def parsePayloadObj (input : JVal) : Except String JVal := validatePayload input

/-! #### A JSON parser (`JSON.parse`) -/

def jsonWs (c : Char) : Bool := c = ' ' || c = '\t' || c = '\n' || c = '\r'

def skipWs (cs : List Char) : List Char := cs.dropWhile jsonWs

def isDigitCh (c : Char) : Bool := '0' ≤ c && c ≤ '9'

def digitsVal (ds : List Char) : Nat :=
  ds.foldl (fun a c => a * 10 + (c.toNat - 48)) 0

def parseNatToken (cs : List Char) : Option (Nat × List Char) :=
  let ds := cs.takeWhile isDigitCh
  if ds.isEmpty then none else some (digitsVal ds, cs.dropWhile isDigitCh)

def parseIntToken : List Char → Option (Int × List Char)
  | [] => none
  | c :: rest =>
      if c = '-' then (parseNatToken rest).map fun p => (-(p.1 : Int), p.2)
      else (parseNatToken (c :: rest)).map fun p => ((p.1 : Int), p.2)

def unescapeChar (c : Char) : Option Char :=
  if c = '"' then some '"'
  else if c = '\\' then some '\\'
  else if c = '/' then some '/'
  else if c = 'n' then some '\n'
  else if c = 't' then some '\t'
  else if c = 'r' then some '\r'
  else if c = 'b' then some '\x08'
  else if c = 'f' then some '\x0c'
  else none

/-- Parse the body of a JSON string after the opening quote. -/
def parseStringBody : List Char → Option (List Char × List Char)
  | [] => none
  | c :: rest =>
      if c = '"' then some ([], rest)
      else if c = '\\' then
        match rest with
        | [] => none
        | e :: rest2 =>
          match unescapeChar e, parseStringBody rest2 with
          | some ec, some (s, r) => some (ec :: s, r)
          | _, _ => none
      else if c.toNat < 32 then none
      else
        match parseStringBody rest with
        | some (s, r) => some (c :: s, r)
        | none => none

mutual

def parseJ : Nat → List Char → Option (JVal × List Char)
  | 0, _ => none
  | Nat.succ fuel, cs =>
    match skipWs cs with
    | '"' :: rest =>
        match parseStringBody rest with
        | some (s, r) => some (JVal.jstr (String.mk s), r)
        | none => none
    | '\x7b' :: rest =>
        match skipWs rest with
        | '\x7d' :: r2 => some (JVal.jobj [], r2)
        | cs2 =>
          match parseMembers fuel cs2 with
          | some (ms, r) => some (JVal.jobj ms, r)
          | none => none
    | '[' :: rest =>
        match skipWs rest with
        | ']' :: r2 => some (JVal.jarr [], r2)
        | cs2 =>
          match parseElems fuel cs2 with
          | some (es, r) => some (JVal.jarr es, r)
          | none => none
    | 't' :: 'r' :: 'u' :: 'e' :: rest => some (JVal.jbool true, rest)
    | 'f' :: 'a' :: 'l' :: 's' :: 'e' :: rest => some (JVal.jbool false, rest)
    | 'n' :: 'u' :: 'l' :: 'l' :: rest => some (JVal.jnull, rest)
    | cs2 =>
        match parseIntToken cs2 with
        | some (n, r) => some (JVal.jnum n, r)
        | none => none

def parseMembers : Nat → List Char → Option (List (String × JVal) × List Char)
  | 0, _ => none
  | Nat.succ fuel, cs =>
    match skipWs cs with
    | '"' :: rest =>
      match parseStringBody rest with
      | some (k, r1) =>
        match skipWs r1 with
        | ':' :: r2 =>
          match parseJ fuel r2 with
          | some (v, r3) =>
            match skipWs r3 with
            | ',' :: r4 =>
                match parseMembers fuel r4 with
                | some (ms, r) => some ((String.mk k, v) :: ms, r)
                | none => none
            | '\x7d' :: r4 => some ([(String.mk k, v)], r4)
            | _ => none
          | none => none
        | _ => none
      | none => none
    | _ => none

def parseElems : Nat → List Char → Option (List JVal × List Char)
  | 0, _ => none
  | Nat.succ fuel, cs =>
    match parseJ fuel cs with
    | some (v, r1) =>
      match skipWs r1 with
      | ',' :: r2 =>
          match parseElems fuel r2 with
          | some (es, r) => some (v :: es, r)
          | none => none
      | ']' :: r2 => some ([v], r2)
      | _ => none
    | none => none

end

/-- Models `JSON.parse`.  The fuel `s.length + 1` dominates the recursion depth:
every nested `parseJ`/`parseMembers`/`parseElems` call strictly consumes
input. -/
def jsonParse (s : String) : Option JVal :=
  match parseJ (s.length + 1) s.data with
  | some (v, rest) => if (skipWs rest).isEmpty then some v else none
  | none => none

/-! #### `JSON.stringify` of an `EncryptionPayload`, `btoa`/`atob` on
strings, and the two payload codec entry points -/

def hexDigit (n : Nat) : Char :=
  if n < 10 then Char.ofNat (48 + n) else Char.ofNat (87 + n)

def jsonEscapeChar (c : Char) : List Char :=
  if c = '"' then ['\\', '"']
  else if c = '\\' then ['\\', '\\']
  else if c = '\x08' then ['\\', 'b']
  else if c = '\t' then ['\\', 't']
  else if c = '\n' then ['\\', 'n']
  else if c = '\x0c' then ['\\', 'f']
  else if c = '\r' then ['\\', 'r']
  else if c.toNat < 32 then
    ['\\', 'u', '0', '0', hexDigit (c.toNat / 16), hexDigit (c.toNat % 16)]
  else [c]

def jsonQuoteChars (s : String) : List Char :=
  '"' :: (s.data.map jsonEscapeChar).flatten ++ ['"']

/-- Models `JSON.stringify(payload)`: keys in object-literal insertion order, the
order `encrypt` constructs (alg, kdf, salt, iv, iterations, ct). -/
def jsonOfPayloadChars (p : EncryptionPayload) : List Char :=
  ['\x7b', '"', 'a', 'l', 'g', '"', ':'] ++ jsonQuoteChars p.alg ++
  [',', '"', 'k', 'd', 'f', '"', ':'] ++ jsonQuoteChars p.kdf ++
  [',', '"', 's', 'a', 'l', 't', '"', ':'] ++ jsonQuoteChars p.salt ++
  [',', '"', 'i', 'v', '"', ':'] ++ jsonQuoteChars p.iv ++
  [',', '"', 'i', 't', 'e', 'r', 'a', 't', 'i', 'o', 'n', 's', '"', ':'] ++
  intDecChars p.iterations ++
  [',', '"', 'c', 't', '"', ':'] ++ jsonQuoteChars p.ct ++
  ['\x7d']

def jsonOfPayload (p : EncryptionPayload) : String :=
  String.mk (jsonOfPayloadChars p)

/-- The `JVal` a correct parse of the serialized payload denotes. -/
def toJVal (p : EncryptionPayload) : JVal :=
  JVal.jobj [("alg", JVal.jstr p.alg), ("kdf", JVal.jstr p.kdf),
             ("salt", JVal.jstr p.salt), ("iv", JVal.jstr p.iv),
             ("iterations", JVal.jnum p.iterations), ("ct", JVal.jstr p.ct)]

/-- Models `btoa`: encodes a latin1 string, throws (`none`) on a char code ≥ 256. -/
def btoaStr (s : String) : Option String :=
  if s.data.all (fun c => c.toNat < 256) then
    some (String.mk (b64EncodeChars (s.data.map Char.toNat)))
  else none

/-- Models `atob`. -/
def atobStr (s : String) : Option String :=
  (b64DecodeChars s.data).map fun bs => String.mk (bs.map Char.ofNat)

/-- Models `encodePayload` (lines 257–260): `btoa(JSON.stringify(payload))`. -/
def encodePayload (p : EncryptionPayload) : Option String :=
  btoaStr (jsonOfPayload p)

/-- Models `parsePayload` on a string input (lines 176–189): try
`JSON.parse(atob(input))`; if either step throws, fall back to
`JSON.parse(input)`; if that throws too, report `invalidFormatMsg`; then
validate. -/
def parsePayloadStr (input : String) : Except String JVal :=
  match (match atobStr input with
         | some decoded =>
           match jsonParse decoded with
           | some v => some v
           | none => jsonParse input
         | none => jsonParse input) with
  | some payload => validatePayload payload
  | none => Except.error invalidFormatMsg

/-! ### Helper lemmas about `validatePayload` -/

theorem algIsSupported_truthy (v : JVal) (h : algIsSupported v = true) :
    fieldTruthy v "alg" = true := by
  unfold algIsSupported at h
  unfold fieldTruthy jTruthy
  rcases hg : getField v "alg" with _ | w
  · rw [hg] at h; simp at h
  · rw [hg] at h
    cases w <;> simp_all

theorem kdfIsSupported_truthy (v : JVal) (h : kdfIsSupported v = true) :
    fieldTruthy v "kdf" = true := by
  unfold kdfIsSupported at h
  unfold fieldTruthy jTruthy
  rcases hg : getField v "kdf" with _ | w
  · rw [hg] at h; simp at h
  · rw [hg] at h
    cases w <;> simp_all

/-- Claim C2 (amended): `parsePayload` accepts a structured object exactly
when all six fields are present and truthy (for the string fields: present
and non-empty; for `iterations`: present and non-zero) and `alg`/`kdf` are
exactly the two supported identifier strings.  It does **not** check that
`salt`/`iv` are decodable base64, nor that `iterations` is positive — the
validation stops at truthiness, so e.g. `iterations: -1` is accepted. -/
theorem parsePayload_accepts_iff (v : JVal) :
    (∃ w, parsePayloadObj v = Except.ok w) ↔
      (fieldTruthy v "salt" = true ∧ fieldTruthy v "iv" = true ∧
       fieldTruthy v "iterations" = true ∧ fieldTruthy v "ct" = true ∧
       algIsSupported v = true ∧ kdfIsSupported v = true) := by
  unfold parsePayloadObj validatePayload
  by_cases hmiss : (fieldTruthy v "alg" && fieldTruthy v "kdf" &&
      fieldTruthy v "salt" && fieldTruthy v "iv" &&
      fieldTruthy v "iterations" && fieldTruthy v "ct") = true
  · rw [if_neg (by simp [hmiss])]
    by_cases hA : algIsSupported v = true
    · rw [if_neg (by simp [hA])]
      by_cases hK : kdfIsSupported v = true
      · rw [if_neg (by simp [hK])]
        simp only [Bool.and_eq_true] at hmiss
        constructor
        · rintro ⟨w, hw⟩
          exact ⟨hmiss.1.1.1.2, hmiss.1.1.2, hmiss.1.2, hmiss.2, hA, hK⟩
        · rintro -
          exact ⟨v, rfl⟩
      · rw [if_pos (by simp [hK])]
        constructor
        · rintro ⟨w, hw⟩; simp at hw
        · rintro ⟨-, -, -, -, -, h6⟩; exact absurd h6 hK
    · rw [if_pos (by simp [hA])]
      constructor
      · rintro ⟨w, hw⟩; simp at hw
      · rintro ⟨-, -, -, -, h5, -⟩; exact absurd h5 hA
  · have hc : (fieldTruthy v "alg" && fieldTruthy v "kdf" &&
        fieldTruthy v "salt" && fieldTruthy v "iv" &&
        fieldTruthy v "iterations" && fieldTruthy v "ct") = false := by
      revert hmiss
      cases (fieldTruthy v "alg" && fieldTruthy v "kdf" &&
        fieldTruthy v "salt" && fieldTruthy v "iv" &&
        fieldTruthy v "iterations" && fieldTruthy v "ct") <;> simp
    rw [if_pos (by simp [hc])]
    constructor
    · rintro ⟨w, hw⟩; simp at hw
    · rintro ⟨hs, hiv, hit, hct, hA, hK⟩
      exact absurd (by
        simp [algIsSupported_truthy _ hA, kdfIsSupported_truthy _ hK,
          hs, hiv, hit, hct]) hmiss

/-- Claim C2 (counterexample to the frozen wording): a payload whose
`iterations` field is `-1` — violating the invariant `iterations > 0` — is
accepted unchanged by `parsePayload`, because the code only checks
truthiness. -/
theorem parsePayload_accepts_nonpositive_iterations :
    parsePayloadObj (JVal.jobj [("alg", JVal.jstr "AES-GCM"),
        ("kdf", JVal.jstr "PBKDF2"), ("salt", JVal.jstr "AAAA"),
        ("iv", JVal.jstr "AAAA"), ("iterations", JVal.jnum (-1)),
        ("ct", JVal.jstr "AAAA")]) =
      Except.ok (JVal.jobj [("alg", JVal.jstr "AES-GCM"),
        ("kdf", JVal.jstr "PBKDF2"), ("salt", JVal.jstr "AAAA"),
        ("iv", JVal.jstr "AAAA"), ("iterations", JVal.jnum (-1)),
        ("ct", JVal.jstr "AAAA")]) ∧
    ¬(0 < (-1 : Int)) := by
  constructor
  · rfl
  · decide

/-- Witness for `parsePayload_accepts_iff` at a concrete accepted payload. -/
theorem parsePayload_accepts_iff_witness :
    ∃ w, parsePayloadObj (JVal.jobj [("alg", JVal.jstr "AES-GCM"),
        ("kdf", JVal.jstr "PBKDF2"), ("salt", JVal.jstr "AAAA"),
        ("iv", JVal.jstr "BBBB"), ("iterations", JVal.jnum 200000),
        ("ct", JVal.jstr "CCCC")]) = Except.ok w :=
  (parsePayload_accepts_iff _).mpr
    ⟨by rfl, by rfl, by rfl, by rfl, by rfl, by rfl⟩

/-- Claim C6: on a structured object whose six fields are present and truthy
but whose `alg` is a string other than `AES-GCM`, `parsePayload` fails with
the `Unsupported algorithm` error naming the offending value; with `alg`
supported but `kdf` a string other than `PBKDF2`, it fails with the
`Unsupported KDF` error naming that value. -/
theorem parsePayload_unsupported_identifier (v : JVal) (a k : String)
    (halg : getField v "alg" = some (JVal.jstr a))
    (hkdf : getField v "kdf" = some (JVal.jstr k))
    (ha : a ≠ "") (hk : k ≠ "")
    (hs : fieldTruthy v "salt" = true) (hiv : fieldTruthy v "iv" = true)
    (hit : fieldTruthy v "iterations" = true) (hct : fieldTruthy v "ct" = true) :
    (a ≠ "AES-GCM" →
      parsePayloadObj v = Except.error (unsupportedAlgorithmMsg a)) ∧
    (a = "AES-GCM" → k ≠ "PBKDF2" →
      parsePayloadObj v = Except.error (unsupportedKdfMsg k)) := by
  have halgT : fieldTruthy v "alg" = true := by
    unfold fieldTruthy; rw [halg]; simpa [jTruthy] using ha
  have hkdfT : fieldTruthy v "kdf" = true := by
    unfold fieldTruthy; rw [hkdf]; simpa [jTruthy] using hk
  unfold parsePayloadObj validatePayload
  rw [if_neg (by simp [halgT, hkdfT, hs, hiv, hit, hct])]
  constructor
  · intro hne
    have hA : algIsSupported v = false := by
      unfold algIsSupported; rw [halg]; simpa using hne
    rw [if_pos (by simp [hA])]
    rw [halg]
    rfl
  · intro heq hkne
    have hA : algIsSupported v = true := by
      unfold algIsSupported; rw [halg]; simpa using heq
    rw [if_neg (by simp [hA])]
    have hK : kdfIsSupported v = false := by
      unfold kdfIsSupported; rw [hkdf]; simpa using hkne
    rw [if_pos (by simp [hK])]
    rw [hkdf]
    rfl

/-- Witness for `parsePayload_unsupported_identifier`: the specification
scenario, `algorithm: "DES"` with all other fields well-formed. -/
theorem parsePayload_unsupported_identifier_witness :
    parsePayloadObj (JVal.jobj [("alg", JVal.jstr "DES"),
        ("kdf", JVal.jstr "PBKDF2"), ("salt", JVal.jstr "AAAA"),
        ("iv", JVal.jstr "BBBB"), ("iterations", JVal.jnum 200000),
        ("ct", JVal.jstr "CCCC")]) =
      Except.error (unsupportedAlgorithmMsg "DES") :=
  (parsePayload_unsupported_identifier _ "DES" "PBKDF2"
    (by rfl) (by rfl) (by decide) (by decide)
    (by rfl) (by rfl) (by rfl) (by rfl)).1 (by decide)

/-- Claim C4 (amended): `encrypt` fails with the `InvalidInput` error
(`Passphrase cannot be empty`) exactly when the passphrase is empty or
whitespace-only; with a non-blank passphrase it always produces an envelope —
in particular an **empty plaintext is not rejected** (the empty-plaintext
guard lives in the UI layer, `page.tsx`/`EncryptTab`, not in `encrypt`). -/
theorem encrypt_rejects_only_blank_passphrase (pr : Prims) (P : Bytes)
    (pass : String) (opts : EncryptionOptions) (salt iv : Bytes) :
    (encrypt pr P pass opts salt iv = Except.error "Passphrase cannot be empty"
      ↔ jsTrim pass = "") ∧
    (jsTrim pass ≠ "" → ∃ env, encrypt pr P pass opts salt iv = Except.ok env) := by
  unfold encrypt
  by_cases h : jsTrim pass = ""
  · rw [if_pos h]
    exact ⟨⟨fun _ => h, fun _ => rfl⟩, fun hne => absurd h hne⟩
  · rw [if_neg h]
    exact ⟨⟨fun hc => by simp at hc, fun hc => absurd hc h⟩, fun _ => ⟨_, rfl⟩⟩

/-- Claim C4 (counterexample to the frozen wording): encrypting the **empty
plaintext** with a valid passphrase succeeds and produces an envelope, so
`encrypt` does not fail with `InvalidInput` on empty plaintext. -/
theorem encrypt_accepts_empty_plaintext :
    (encrypt toyPrims [] "pw" ⟨none, none⟩ [] []).toOption.isSome = true := by
  rfl

/-- Witness for `encrypt_rejects_only_blank_passphrase` at concrete inputs:
a whitespace-only passphrase is rejected and a non-blank one accepted. -/
theorem encrypt_rejects_only_blank_passphrase_witness :
    (encrypt toyPrims [104, 105] "  " ⟨none, none⟩ [1] [2] =
        Except.error "Passphrase cannot be empty" ↔ jsTrim "  " = "") ∧
    (jsTrim "  " ≠ "" → ∃ env, encrypt toyPrims [104, 105] "  " ⟨none, none⟩ [1] [2] =
        Except.ok env) :=
  encrypt_rejects_only_blank_passphrase toyPrims [104, 105] "  " ⟨none, none⟩ [1] [2]

/-- Claim C10: with `options.iterations` equal to `0` (a falsy value) or
unspecified, the produced envelope records `iterations = 200000`: the
`options.iterations || 200000` coalescing turns an explicit zero into the
default rather than rejecting it or keeping `0`. -/
theorem encrypt_default_iterations (pr : Prims) (P : Bytes) (pass : String)
    (hpass : jsTrim pass ≠ "") (salt iv : Bytes) (alg : Option String) :
    (∃ env, encrypt pr P pass ⟨some 0, alg⟩ salt iv = Except.ok env ∧
            env.iterations = 200000) ∧
    (∃ env, encrypt pr P pass ⟨none, alg⟩ salt iv = Except.ok env ∧
            env.iterations = 200000) := by
  constructor
  · refine ⟨EncryptionPayload.mk (resolveAlgorithm (EncryptionOptions.mk
        (some 0) alg)) "PBKDF2" (bytesToB64 salt) (bytesToB64 iv) 200000
        (bytesToB64 (pr.aeadEncrypt (pr.deriveKey (utf8Bytes pass) salt
          200000) iv P)), ?_, rfl⟩
    unfold encrypt
    rw [if_neg hpass]
    rfl
  · refine ⟨EncryptionPayload.mk (resolveAlgorithm (EncryptionOptions.mk
        none alg)) "PBKDF2" (bytesToB64 salt) (bytesToB64 iv) 200000
        (bytesToB64 (pr.aeadEncrypt (pr.deriveKey (utf8Bytes pass) salt
          200000) iv P)), ?_, rfl⟩
    unfold encrypt
    rw [if_neg hpass]
    rfl

/-- Witness for `encrypt_default_iterations` at concrete inputs. -/
theorem encrypt_default_iterations_witness :
    (∃ env, encrypt toyPrims [1, 2] "pw" ⟨some 0, none⟩ [3] [4] = Except.ok env ∧
            env.iterations = 200000) ∧
    (∃ env, encrypt toyPrims [1, 2] "pw" ⟨none, none⟩ [3] [4] = Except.ok env ∧
            env.iterations = 200000) :=
  encrypt_default_iterations toyPrims [1, 2] "pw" (by decide) [3] [4] none

/-! ### Claims C1 and C3: round-trip and tamper detection -/

/-- Claim C1 (amended): for every plaintext byte sequence `P` that is valid
UTF-8 — in particular the `TextEncoder` bytes of any text input — and every
non-blank passphrase, decrypting the envelope produced by `encrypt` with the
same passphrase returns `P`.  The hypotheses on `pr` are the AEAD round-trip
contract of the Web Crypto API and the fact that it produces bytes.  (The
frozen claim's extension to **arbitrary** file bytes fails: `decrypt` returns
a `TextDecoder`-decoded string, which replaces invalid UTF-8 — see the
counterexample `roundtrip_fails_on_invalid_utf8`.) -/
theorem roundtrip_valid_utf8 (pr : Prims)
    (hrt : ∀ k i p, pr.aeadDecrypt k i (pr.aeadEncrypt k i p) = some p)
    (hwf : ∀ k i p, allBytes p → allBytes (pr.aeadEncrypt k i p))
    (P : Bytes) (hPb : allBytes P) (hP : validUtf8 P = true)
    (pass : String) (hpass : jsTrim pass ≠ "")
    (salt iv : Bytes) (hsalt : allBytes salt) (hiv : allBytes iv)
    (opts : EncryptionOptions) :
    ∃ env, encrypt pr P pass opts salt iv = Except.ok env ∧
           decrypt pr env pass = Except.ok P := by
  refine ⟨EncryptionPayload.mk (resolveAlgorithm opts) "PBKDF2"
      (bytesToB64 salt) (bytesToB64 iv) (resolveIterations opts)
      (bytesToB64 (pr.aeadEncrypt (pr.deriveKey (utf8Bytes pass) salt
        (resolveIterations opts)) iv P)), ?_, ?_⟩
  · unfold encrypt
    rw [if_neg hpass]
  · unfold decrypt
    rw [if_neg hpass]
    simp only [base64ToBytes_bytesToB64 salt hsalt,
      base64ToBytes_bytesToB64 iv hiv,
      base64ToBytes_bytesToB64 _ (hwf _ _ _ hPb), hrt,
      utf8DecodeReplace_valid P hP]

/-- Claim C1 (counterexample to the frozen wording): the raw file byte
`0xFF` is not valid UTF-8, so `decrypt(encrypt([0xFF], K), K)` returns the
single replacement character U+FFFD (bytes `EF BF BD`), not `[0xFF]`: raw
binary plaintext does not round-trip at byte level. -/
theorem roundtrip_fails_on_invalid_utf8 :
    encrypt toyPrims [255] "pw" ⟨none, none⟩ [1] [2] =
      Except.ok (EncryptionPayload.mk "AES-GCM" "PBKDF2" (bytesToB64 [1])
        (bytesToB64 [2]) 200000 (bytesToB64 (toyPrims.aeadEncrypt
          (toyPrims.deriveKey (utf8Bytes "pw") [1] 200000) [2] [255]))) ∧
    decrypt toyPrims (EncryptionPayload.mk "AES-GCM" "PBKDF2" (bytesToB64 [1])
        (bytesToB64 [2]) 200000 (bytesToB64 (toyPrims.aeadEncrypt
          (toyPrims.deriveKey (utf8Bytes "pw") [1] 200000) [2] [255]))) "pw" =
      Except.ok [0xEF, 0xBF, 0xBD] ∧
    ([0xEF, 0xBF, 0xBD] : Bytes) ≠ [255] := by
  refine ⟨rfl, ?_, by decide⟩
  rfl

/-- Witness for `roundtrip_valid_utf8`: the UTF-8 bytes of `"hi"` round-trip
through the toy primitives. -/
theorem roundtrip_valid_utf8_witness :
    ∃ env, encrypt toyPrims [104, 105] "pw" ⟨none, none⟩ [1] [2] =
        Except.ok env ∧
      decrypt toyPrims env "pw" = Except.ok [104, 105] :=
  roundtrip_valid_utf8 toyPrims toyPrims_roundtrip toyPrims_bytes
    [104, 105] (by decide) (by decide) "pw" (by decide)
    [1] [2] (by decide) (by decide) ⟨none, none⟩

theorem flipBit_allBytes (bs : Bytes) (i k : Nat) (hk : k < 8)
    (h : allBytes bs) : allBytes (flipBit bs i k) := by
  induction bs generalizing i with
  | nil => exact h
  | cons b rest ih =>
      cases i with
      | zero =>
          intro x hx
          rw [flipBit] at hx
          rcases List.mem_cons.mp hx with hx | hx
          · subst hx
            have hb : b < 256 := h b (List.mem_cons_self _ _)
            have h2k : (2 : Nat) ^ k < 2 ^ 8 :=
              Nat.pow_lt_pow_right (by norm_num) hk
            have hxor : b ^^^ 2 ^ k < 2 ^ 8 :=
              Nat.xor_lt_two_pow (lt_of_lt_of_le hb (by norm_num)) h2k
            exact lt_of_lt_of_eq hxor (by norm_num)
          · exact h x (List.mem_cons_of_mem _ hx)
      | succ j =>
          intro x hx
          rw [flipBit] at hx
          rcases List.mem_cons.mp hx with hx | hx
          · subst hx
            exact h x (List.mem_cons_self _ _)
          · exact ih j (fun y hy => h y (List.mem_cons_of_mem _ hy)) x hx

/-- Claim C3: for a valid envelope, flipping any bit of the ciphertext or of
the iv makes `decrypt` fail with the single `AuthenticationFailed` error —
the same error a wrong passphrase produces, so the two are not distinguished
— and `decrypt` never returns plaintext in these cases.  The hypotheses
`hrejCt`/`hrejIv`/`hrejPass` are the AEAD tag-verification guarantee of the
platform (`crypto.subtle.decrypt` throws `OperationError` on the altered
ciphertext, the altered nonce, and the wrong key, each with overwhelming
probability for AES-GCM; the theorem shows the code then surfaces exactly the
one error kind). -/
theorem tamper_detection (pr : Prims) (pass wrongPass : String)
    (hpass : jsTrim pass ≠ "") (hwrong : jsTrim wrongPass ≠ "")
    (salt iv ct : Bytes) (hsalt : allBytes salt) (hiv : allBytes iv)
    (hct : allBytes ct) (iters : Int) (i k j l : Nat) (hk : k < 8) (hl : l < 8)
    (hrejCt : pr.aeadDecrypt (pr.deriveKey (utf8Bytes pass) salt iters) iv
        (flipBit ct i k) = none)
    (hrejIv : pr.aeadDecrypt (pr.deriveKey (utf8Bytes pass) salt iters)
        (flipBit iv j l) ct = none)
    (hrejPass : pr.aeadDecrypt (pr.deriveKey (utf8Bytes wrongPass) salt iters)
        iv ct = none) :
    decrypt pr (EncryptionPayload.mk "AES-GCM" "PBKDF2" (bytesToB64 salt)
        (bytesToB64 iv) iters (bytesToB64 (flipBit ct i k))) pass =
      Except.error authenticationFailedMsg ∧
    decrypt pr (EncryptionPayload.mk "AES-GCM" "PBKDF2" (bytesToB64 salt)
        (bytesToB64 (flipBit iv j l)) iters (bytesToB64 ct)) pass =
      Except.error authenticationFailedMsg ∧
    decrypt pr (EncryptionPayload.mk "AES-GCM" "PBKDF2" (bytesToB64 salt)
        (bytesToB64 iv) iters (bytesToB64 ct)) wrongPass =
      Except.error authenticationFailedMsg := by
  refine ⟨?_, ?_, ?_⟩
  · unfold decrypt
    rw [if_neg hpass]
    simp only [base64ToBytes_bytesToB64 salt hsalt,
      base64ToBytes_bytesToB64 iv hiv,
      base64ToBytes_bytesToB64 _ (flipBit_allBytes ct i k hk hct), hrejCt]
  · unfold decrypt
    rw [if_neg hpass]
    simp only [base64ToBytes_bytesToB64 salt hsalt,
      base64ToBytes_bytesToB64 _ (flipBit_allBytes iv j l hl hiv),
      base64ToBytes_bytesToB64 ct hct, hrejIv]
  · unfold decrypt
    rw [if_neg hwrong]
    simp only [base64ToBytes_bytesToB64 salt hsalt,
      base64ToBytes_bytesToB64 iv hiv,
      base64ToBytes_bytesToB64 ct hct, hrejPass]

/-- Witness for `tamper_detection`: a concrete toy envelope in which the
flipped ciphertext bit, the flipped iv bit, and the wrong passphrase each
fail the toy tag check. -/
theorem tamper_detection_witness :
    decrypt toyPrims (EncryptionPayload.mk "AES-GCM" "PBKDF2" (bytesToB64 [1])
        (bytesToB64 [2]) 200000
        (bytesToB64 (flipBit (toyPrims.aeadEncrypt
          (toyPrims.deriveKey (utf8Bytes "pw") [1] 200000) [2] [5, 6]) 0 0)))
        "pw" = Except.error authenticationFailedMsg ∧
    decrypt toyPrims (EncryptionPayload.mk "AES-GCM" "PBKDF2" (bytesToB64 [1])
        (bytesToB64 (flipBit [2] 0 0)) 200000
        (bytesToB64 (toyPrims.aeadEncrypt
          (toyPrims.deriveKey (utf8Bytes "pw") [1] 200000) [2] [5, 6])))
        "pw" = Except.error authenticationFailedMsg ∧
    decrypt toyPrims (EncryptionPayload.mk "AES-GCM" "PBKDF2" (bytesToB64 [1])
        (bytesToB64 [2]) 200000
        (bytesToB64 (toyPrims.aeadEncrypt
          (toyPrims.deriveKey (utf8Bytes "pw") [1] 200000) [2] [5, 6])))
        "wrong" = Except.error authenticationFailedMsg :=
  tamper_detection toyPrims "pw" "wrong" (by decide) (by decide)
    [1] [2] (toyPrims.aeadEncrypt (toyPrims.deriveKey (utf8Bytes "pw") [1]
      200000) [2] [5, 6])
    (by decide) (by decide) (by decide) 200000 0 0 0 0 (by decide) (by decide)
    (by decide) (by decide) (by decide)

/-! ### Claim C7: the history cap -/

/-- A sequence of `addToHistory` calls starting from an empty store; each
element carries the fresh id and timestamp `addToHistory` would generate. -/
def runAppends (start : List HistoryItem) (items : List HistoryItem) :
    List HistoryItem :=
  items.foldl (fun st it => addToHistory st it.name it.payload it.size
    it.id it.timestamp) start

theorem runAppends_spec (items : List HistoryItem)
    (hinc : items.Pairwise (fun a b => a.timestamp < b.timestamp)) :
    runAppends [] items = items.reverse.take maxItems ∧
    (items.reverse.take maxItems).Pairwise
      (fun a b => b.timestamp < a.timestamp) := by
  induction items using List.reverseRecOn with
  | nil => exact ⟨rfl, List.Pairwise.nil⟩
  | append_singleton l x ih =>
      rw [List.pairwise_append] at hinc
      obtain ⟨hl, -, hxall⟩ := hinc
      obtain ⟨e, srt⟩ := ih hl
      have hx : ∀ a ∈ l, a.timestamp < x.timestamp := fun a ha =>
        hxall a ha x (List.mem_singleton.mpr rfl)
      have hsorted_le : (runAppends [] l).Sorted
          (fun a b => b.timestamp ≤ a.timestamp) := by
        rw [e]; exact srt.imp le_of_lt
      have eget : getHistory (runAppends [] l) = l.reverse.take maxItems := by
        unfold getHistory
        rw [List.Sorted.insertionSort_eq hsorted_le, e]
      have efold : runAppends [] (l ++ [x]) =
          (x :: getHistory (runAppends [] l)).take maxItems := by
        simp only [runAppends, List.foldl_append, List.foldl_cons,
          List.foldl_nil]
        rfl
      have eshape : (l ++ [x]).reverse.take maxItems =
          x :: l.reverse.take (maxItems - 1) := by
        rw [List.reverse_append]
        rfl
      have etake : ∀ t : List HistoryItem,
          (x :: t.take maxItems).take maxItems = x :: t.take (maxItems - 1) := by
        intro t
        show (x :: t.take maxItems).take (19 + 1) = _
        rw [List.take_succ_cons, List.take_take]
        rfl
      constructor
      · rw [efold, eget, eshape, etake]
      · rw [eshape]
        rw [List.pairwise_cons]
        constructor
        · intro b hb
          have hb2 : b ∈ l.reverse := List.mem_of_mem_take hb
          exact hx b (List.mem_reverse.mp hb2)
        · have hpref : l.reverse.take (maxItems - 1) =
              (l.reverse.take maxItems).take (maxItems - 1) := by
            rw [List.take_take]
            rfl
          rw [hpref]
          exact srt.sublist (List.take_sublist _ _)

/-- Claim C7: starting from an empty store, after any sequence of appends
with (strictly) increasing timestamps, `getHistory` returns exactly the
`min 20 n` most recent entries, newest-first; and every `addToHistory` result
is capped at 20 entries regardless of the prior state. -/
theorem history_cap (items : List HistoryItem)
    (hinc : items.Pairwise (fun a b => a.timestamp < b.timestamp)) :
    getHistory (runAppends [] items) = items.reverse.take maxItems ∧
    (getHistory (runAppends [] items)).length = min maxItems items.length ∧
    (getHistory (runAppends [] items)).Pairwise
      (fun a b => b.timestamp ≤ a.timestamp) ∧
    ∀ (st : List HistoryItem) (x : HistoryItem),
      (addToHistory st x.name x.payload x.size x.id x.timestamp).length ≤
        maxItems := by
  obtain ⟨e, srt⟩ := runAppends_spec items hinc
  have hsorted_le : (runAppends [] items).Sorted
      (fun a b => b.timestamp ≤ a.timestamp) := by
    rw [e]; exact srt.imp le_of_lt
  have eg : getHistory (runAppends [] items) = items.reverse.take maxItems := by
    unfold getHistory
    rw [List.Sorted.insertionSort_eq hsorted_le, e]
  refine ⟨eg, ?_, ?_, ?_⟩
  · rw [eg, List.length_take, List.length_reverse]
  · rw [eg]; exact srt.imp le_of_lt
  · intro st x
    exact List.length_take_le _ _

/-- Witness for `history_cap`: the specification scenario — 25 appends with
increasing timestamps; exactly the 20 most recent remain, newest-first. -/
theorem history_cap_witness :
    getHistory (runAppends [] ((List.range 25).map (fun m =>
        HistoryItem.mk "" "" (m : Int)
          (EncryptionPayload.mk "" "" "" "" 0 "") 0))) =
      ((List.range 25).map (fun m => HistoryItem.mk "" "" (m : Int)
          (EncryptionPayload.mk "" "" "" "" 0 "") 0)).reverse.take maxItems ∧
    (getHistory (runAppends [] ((List.range 25).map (fun m =>
        HistoryItem.mk "" "" (m : Int)
          (EncryptionPayload.mk "" "" "" "" 0 "") 0)))).length =
      min maxItems ((List.range 25).map (fun m => HistoryItem.mk "" "" (m : Int)
          (EncryptionPayload.mk "" "" "" "" 0 "") 0)).length ∧
    (getHistory (runAppends [] ((List.range 25).map (fun m =>
        HistoryItem.mk "" "" (m : Int)
          (EncryptionPayload.mk "" "" "" "" 0 "") 0)))).Pairwise
      (fun a b => b.timestamp ≤ a.timestamp) ∧
    ∀ (st : List HistoryItem) (x : HistoryItem),
      (addToHistory st x.name x.payload x.size x.id x.timestamp).length ≤
        maxItems :=
  history_cap ((List.range 25).map (fun m => HistoryItem.mk "" "" (m : Int)
    (EncryptionPayload.mk "" "" "" "" 0 "") 0)) (by decide)

/-! ### Claims C8 and C9: password strength -/

theorem natPow_lt_iff_entropy_lt (c len t : Nat) (hc : 1 ≤ c) :
    c ^ len < 2 ^ t ↔ (len : ℝ) * Real.logb 2 (c : ℝ) < (t : ℝ) := by
  have hcp : (0 : ℝ) < (c : ℝ) := by exact_mod_cast Nat.lt_of_lt_of_le Nat.zero_lt_one hc
  have hpow : (0 : ℝ) < (c : ℝ) ^ len := pow_pos hcp len
  rw [show (len : ℝ) * Real.logb 2 (c : ℝ) = Real.logb 2 ((c : ℝ) ^ len) from
    (Real.logb_pow 2 (c : ℝ) len).symm]
  rw [Real.logb_lt_iff_lt_rpow (by norm_num) hpow, Real.rpow_natCast]
  exact_mod_cast Iff.rfl

theorem natPow_le_iff_entropy_le (t N : Nat) (hN : 1 ≤ N) :
    2 ^ t ≤ N ↔ (t : ℝ) ≤ Real.logb 2 (N : ℝ) := by
  have hNp : (0 : ℝ) < (N : ℝ) := by exact_mod_cast hN
  rw [Real.le_logb_iff_rpow_le (by norm_num) hNp, Real.rpow_natCast]
  exact_mod_cast Iff.rfl

theorem natLt_pow_iff_logb_lt (N t : Nat) (hN : 1 ≤ N) :
    N < 2 ^ t ↔ Real.logb 2 (N : ℝ) < (t : ℝ) := by
  have hNp : (0 : ℝ) < (N : ℝ) := by exact_mod_cast hN
  rw [Real.logb_lt_iff_lt_rpow (by norm_num) hNp, Real.rpow_natCast]
  exact_mod_cast Iff.rfl

theorem natLog_eq_floor_logb (N : Nat) (hN : 1 ≤ N) :
    ⌊Real.logb 2 (N : ℝ)⌋₊ = Nat.log 2 N := by
  have h1 : ((Nat.log 2 N : ℕ) : ℝ) ≤ Real.logb 2 (N : ℝ) :=
    (natPow_le_iff_entropy_le _ N hN).mp (Nat.pow_log_le_self 2 (by omega))
  have h2 : Real.logb 2 (N : ℝ) < ((Nat.log 2 N + 1 : ℕ) : ℝ) :=
    (natLt_pow_iff_logb_lt N _ hN).mp (Nat.lt_pow_succ_log_self (by norm_num) N)
  rw [Nat.floor_eq_iff (le_trans (Nat.cast_nonneg _) h1)]
  constructor
  · exact h1
  · exact lt_of_lt_of_le h2 (by push_cast; linarith)

theorem entropyRounded_eq_round (len c : Nat) (hc : 1 ≤ c) :
    (entropyRounded len c : ℤ) = round ((len : ℝ) * Real.logb 2 (c : ℝ)) := by
  set E := (len : ℝ) * Real.logb 2 (c : ℝ) with hEdef
  have hE0 : 0 ≤ E := mul_nonneg (Nat.cast_nonneg _)
    (Real.logb_nonneg (by norm_num) (by exact_mod_cast hc))
  have hN1 : 1 ≤ c ^ (2 * len) := Nat.one_le_pow _ _ (by omega)
  have h2E : Real.logb 2 ((c ^ (2 * len) : ℕ) : ℝ) = 2 * E := by
    push_cast
    rw [Real.logb_pow]
    push_cast
    ring
  have hfl : ⌊(2 : ℝ) * E⌋₊ = Nat.log 2 (c ^ (2 * len)) := by
    rw [← h2E]
    exact natLog_eq_floor_logb _ hN1
  have hnn : (0 : ℝ) ≤ (2 * E + 1) / 2 := by positivity
  rw [round_eq, show E + 1 / 2 = (2 * E + 1) / 2 by ring,
    ← Int.natCast_floor_eq_floor hnn]
  norm_cast
  rw [Nat.floor_div_ofNat, Nat.floor_add_one (by positivity), hfl]
  rfl

/-- Claim C8: `calculatePasswordStrength` is the exact deterministic step
function of the specification.  The empty password yields score 0, entropy 0
and the distinct required-feedback; otherwise, writing
`E = length · log₂ (charset size floored at 1)` for the real entropy of the
code (IEEE doubles idealized as exact reals): the score follows the
`<28/<36/<60/<128` thresholds on `E`, the reported entropy is `round E`,
and the feedback is the fixed string for the score.  The charset size is the
stated sum of 26/26/10/32 (that conjunct restates the definition, which is
transcribed from the four regex tests of the source). -/
theorem password_strength_spec (p : String) (hp : p ≠ "") :
    calculatePasswordStrength "" = ⟨0, 0, "Password required"⟩ ∧
    1 ≤ effCharSet p ∧
    ((calculatePasswordStrength p).score =
      if (p.length : ℝ) * Real.logb 2 (effCharSet p : ℝ) < 28 then 0
      else if (p.length : ℝ) * Real.logb 2 (effCharSet p : ℝ) < 36 then 1
      else if (p.length : ℝ) * Real.logb 2 (effCharSet p : ℝ) < 60 then 2
      else if (p.length : ℝ) * Real.logb 2 (effCharSet p : ℝ) < 128 then 3
      else 4) ∧
    ((calculatePasswordStrength p).entropy : ℤ) =
      round ((p.length : ℝ) * Real.logb 2 (effCharSet p : ℝ)) ∧
    (calculatePasswordStrength p).feedback =
      strengthFeedback (calculatePasswordStrength p).score := by
  have hc : 1 ≤ effCharSet p := by
    unfold effCharSet
    split <;> omega
  refine ⟨rfl, hc, ?_, ?_, ?_⟩
  · have h28 : ((p.length : ℝ) * Real.logb 2 (effCharSet p : ℝ) < 28) ↔
        effCharSet p ^ p.length < 2 ^ 28 := by
      rw [show ((28 : ℝ)) = ((28 : ℕ) : ℝ) by norm_num]
      exact (natPow_lt_iff_entropy_lt _ _ 28 hc).symm
    have h36 : ((p.length : ℝ) * Real.logb 2 (effCharSet p : ℝ) < 36) ↔
        effCharSet p ^ p.length < 2 ^ 36 := by
      rw [show ((36 : ℝ)) = ((36 : ℕ) : ℝ) by norm_num]
      exact (natPow_lt_iff_entropy_lt _ _ 36 hc).symm
    have h60 : ((p.length : ℝ) * Real.logb 2 (effCharSet p : ℝ) < 60) ↔
        effCharSet p ^ p.length < 2 ^ 60 := by
      rw [show ((60 : ℝ)) = ((60 : ℕ) : ℝ) by norm_num]
      exact (natPow_lt_iff_entropy_lt _ _ 60 hc).symm
    have h128 : ((p.length : ℝ) * Real.logb 2 (effCharSet p : ℝ) < 128) ↔
        effCharSet p ^ p.length < 2 ^ 128 := by
      rw [show ((128 : ℝ)) = ((128 : ℕ) : ℝ) by norm_num]
      exact (natPow_lt_iff_entropy_lt _ _ 128 hc).symm
    rw [if_congr h28 rfl rfl, if_congr h36 rfl rfl, if_congr h60 rfl rfl,
      if_congr h128 rfl rfl]
    simp only [calculatePasswordStrength, if_neg hp]
    rfl
  · simp only [calculatePasswordStrength, if_neg hp]
    exact entropyRounded_eq_round _ _ hc
  · simp only [calculatePasswordStrength, if_neg hp]

/-- Witness for `password_strength_spec` at the concrete password `abc`. -/
theorem password_strength_spec_witness :
    calculatePasswordStrength "" = ⟨0, 0, "Password required"⟩ ∧
    1 ≤ effCharSet "abc" ∧
    ((calculatePasswordStrength "abc").score =
      if (("abc" : String).length : ℝ) * Real.logb 2 (effCharSet "abc" : ℝ) < 28 then 0
      else if (("abc" : String).length : ℝ) * Real.logb 2 (effCharSet "abc" : ℝ) < 36 then 1
      else if (("abc" : String).length : ℝ) * Real.logb 2 (effCharSet "abc" : ℝ) < 60 then 2
      else if (("abc" : String).length : ℝ) * Real.logb 2 (effCharSet "abc" : ℝ) < 128 then 3
      else 4) ∧
    ((calculatePasswordStrength "abc").entropy : ℤ) =
      round ((("abc" : String).length : ℝ) * Real.logb 2 (effCharSet "abc" : ℝ)) ∧
    (calculatePasswordStrength "abc").feedback =
      strengthFeedback (calculatePasswordStrength "abc").score :=
  password_strength_spec "abc" (by decide)

theorem strengthScore_mono (c l1 l2 : Nat) (hc : 1 ≤ c) (h : l1 ≤ l2) :
    strengthScore l1 c ≤ strengthScore l2 c := by
  have hpow : c ^ l1 ≤ c ^ l2 := Nat.pow_le_pow_right hc h
  have t1 : (2 : ℕ) ^ 28 ≤ 2 ^ 36 := by norm_num
  have t2 : (2 : ℕ) ^ 36 ≤ 2 ^ 60 := by norm_num
  have t3 : (2 : ℕ) ^ 60 ≤ 2 ^ 128 := by norm_num
  unfold strengthScore
  split_ifs <;> omega

/-- Claim C9: for two passwords drawn from the same character classes (all
four class flags agree), the strength score is non-decreasing in password
length. -/
theorem password_strength_monotone (p1 p2 : String)
    (hL : hasLowercase p1 = hasLowercase p2)
    (hU : hasUppercase p1 = hasUppercase p2)
    (hD : hasDigitChar p1 = hasDigitChar p2)
    (hS : hasSymbolChar p1 = hasSymbolChar p2)
    (hlen : p1.length ≤ p2.length) :
    (calculatePasswordStrength p1).score ≤ (calculatePasswordStrength p2).score := by
  by_cases h1 : p1 = ""
  · rw [h1]
    simp only [calculatePasswordStrength, if_pos rfl]
    exact Nat.zero_le _
  · have h2 : p2 ≠ "" := by
      intro he
      apply h1
      have hlen2 : p2.length = 0 := by rw [he]; rfl
      have hl0 : p1.length = 0 := by omega
      cases p1 with
      | mk data =>
        cases data with
        | nil => rfl
        | cons a l => simp [String.length] at hl0
    have hcs : effCharSet p1 = effCharSet p2 := by
      unfold effCharSet charSetSize
      rw [hL, hU, hD, hS]
    have hc : 1 ≤ effCharSet p1 := by
      unfold effCharSet
      split <;> omega
    simp only [calculatePasswordStrength, if_neg h1, if_neg h2]
    rw [hcs]
    exact strengthScore_mono _ _ _ (hcs ▸ hc) hlen

/-- Witness for `password_strength_monotone` on two all-lowercase passwords. -/
theorem password_strength_monotone_witness :
    (calculatePasswordStrength "abc").score ≤
      (calculatePasswordStrength "abcdefgh").score :=
  password_strength_monotone "abc" "abcdefgh"
    (by decide) (by decide) (by decide) (by decide) (by decide)

/-! ### Claim C5: codec symmetry -/

/-- The characters `arrayBufferToBase64` can produce. -/
def isB64TextChar (c : Char) : Prop := c ∈ b64Alphabet ∨ c = '='

instance (c : Char) : Decidable (isB64TextChar c) := by
  unfold isB64TextChar; infer_instance

theorem b64TextChar_facts : ∀ c ∈ b64Alphabet,
    c ≠ '"' ∧ c ≠ '\\' ∧ c ≠ '\x08' ∧ c ≠ '\t' ∧ c ≠ '\n' ∧ c ≠ '\x0c' ∧
    c ≠ '\r' ∧ 32 ≤ c.toNat ∧ c.toNat < 256 := by
  decide

theorem b64PadChar_facts : ('=' : Char) ≠ '"' ∧ ('=' : Char) ≠ '\\' ∧
    ('=' : Char) ≠ '\x08' ∧ ('=' : Char) ≠ '\t' ∧ ('=' : Char) ≠ '\n' ∧
    ('=' : Char) ≠ '\x0c' ∧ ('=' : Char) ≠ '\r' ∧ 32 ≤ ('=' : Char).toNat ∧
    ('=' : Char).toNat < 256 := by
  decide

/-- Characters that `JSON.stringify` leaves unescaped and `btoa` accepts:
everything a serialized payload's string fields may contain. -/
def jsonPlainChar (c : Char) : Prop :=
  c ≠ '"' ∧ c ≠ '\\' ∧ c ≠ '\x08' ∧ c ≠ '\t' ∧ c ≠ '\n' ∧ c ≠ '\x0c' ∧
  c ≠ '\r' ∧ 32 ≤ c.toNat ∧ c.toNat < 256

instance (c : Char) : Decidable (jsonPlainChar c) := by
  unfold jsonPlainChar; infer_instance

theorem b64TextChar_plain (c : Char) (h : isB64TextChar c) : jsonPlainChar c := by
  rcases h with h | h
  · exact b64TextChar_facts c h
  · rw [h]; exact b64PadChar_facts

theorem jsonEscapeChar_plain (c : Char) (h : jsonPlainChar c) :
    jsonEscapeChar c = [c] := by
  obtain ⟨h1, h2, h3, h4, h5, h6, h7, h8, -⟩ := h
  unfold jsonEscapeChar
  rw [if_neg h1, if_neg h2, if_neg h3, if_neg h4, if_neg h5, if_neg h6,
    if_neg h7, if_neg (by omega)]

theorem escapeList_id (l : List Char) (h : ∀ c ∈ l, jsonPlainChar c) :
    (l.map jsonEscapeChar).flatten = l := by
  induction l with
  | nil => rfl
  | cons c t ih =>
      rw [List.map_cons, List.flatten_cons,
        jsonEscapeChar_plain c (h c (List.mem_cons_self _ _)),
        ih (fun x hx => h x (List.mem_cons_of_mem _ hx))]
      rfl

theorem jsonQuoteChars_of_b64 (s : String) (h : ∀ c ∈ s.data, jsonPlainChar c) :
    jsonQuoteChars s = '"' :: (s.data ++ ['"']) := by
  unfold jsonQuoteChars
  rw [escapeList_id s.data h]
  simp

theorem parseStringBody_plain (l rest : List Char)
    (h : ∀ c ∈ l, jsonPlainChar c) :
    parseStringBody (l ++ '"' :: rest) = some (l, rest) := by
  induction l with
  | nil => simp [parseStringBody.eq_def]
  | cons c t ih =>
      obtain ⟨h1, h2, -, -, -, -, -, h8, -⟩ := h c (List.mem_cons_self _ _)
      rw [List.cons_append, parseStringBody.eq_def]
      simp only [if_neg h1, if_neg h2,
        if_neg (show ¬(c.toNat < 32) by omega),
        ih (fun x hx => h x (List.mem_cons_of_mem _ hx))]

/-- The ten decimal digit characters. -/
def digitChars : List Char := ['0', '1', '2', '3', '4', '5', '6', '7', '8', '9']

theorem digitChars_facts : ∀ c ∈ digitChars,
    isDigitCh c = true ∧ jsonWs c = false ∧ c ≠ '"' ∧ c ≠ '\x7b' ∧ c ≠ '[' ∧
    c ≠ 't' ∧ c ≠ 'f' ∧ c ≠ 'n' ∧ c ≠ '-' := by
  decide

theorem digitOfNat_mem : ∀ d, d < 10 → Char.ofNat (48 + d) ∈ digitChars := by
  decide

theorem digitOfNat_toNat : ∀ d, d < 10 → (Char.ofNat (48 + d)).toNat = 48 + d := by
  decide

theorem natDigits_mem (n : Nat) : ∀ c ∈ natDigits n, c ∈ digitChars := by
  induction n using natDigits.induct with
  | case1 n hlt =>
      intro c hc
      rw [natDigits, if_pos hlt] at hc
      rw [List.mem_singleton] at hc
      subst hc
      exact digitOfNat_mem n hlt
  | case2 n hlt ih =>
      intro c hc
      rw [natDigits, if_neg hlt] at hc
      rcases List.mem_append.mp hc with hc | hc
      · exact ih c hc
      · rw [List.mem_singleton] at hc
        subst hc
        exact digitOfNat_mem _ (Nat.mod_lt _ (by omega))

theorem natDigits_ne_nil (n : Nat) : natDigits n ≠ [] := by
  rw [natDigits]
  split
  · simp
  · simp

theorem digitsVal_natDigits (n : Nat) : digitsVal (natDigits n) = n := by
  induction n using natDigits.induct with
  | case1 n hlt =>
      rw [natDigits, if_pos hlt]
      unfold digitsVal
      rw [List.foldl_cons, List.foldl_nil, digitOfNat_toNat n hlt]
      omega
  | case2 n hlt ih =>
      rw [natDigits, if_neg hlt]
      unfold digitsVal at ih ⊢
      rw [List.foldl_append, ih, List.foldl_cons, List.foldl_nil,
        digitOfNat_toNat _ (Nat.mod_lt _ (by omega))]
      omega

theorem takeWhile_digits_append (l rest : List Char)
    (hl : ∀ c ∈ l, isDigitCh c = true)
    (hrest : ∀ c, rest.head? = some c → isDigitCh c = false) :
    (l ++ rest).takeWhile isDigitCh = l ∧
    (l ++ rest).dropWhile isDigitCh = rest := by
  induction l with
  | nil =>
      cases rest with
      | nil => exact ⟨rfl, rfl⟩
      | cons r rs =>
          have hr : isDigitCh r = false := hrest r rfl
          constructor
          · simp [List.takeWhile_cons, hr]
          · simp [List.dropWhile_cons, hr]
  | cons c t ih =>
      have hc : isDigitCh c = true := hl c (List.mem_cons_self _ _)
      obtain ⟨e1, e2⟩ := ih (fun x hx => hl x (List.mem_cons_of_mem _ hx))
      constructor
      · rw [List.cons_append, List.takeWhile_cons, hc, e1]
        simp
      · rw [List.cons_append, List.dropWhile_cons]
        simp only [hc, if_pos]
        exact e2

theorem parseNatToken_digits (n : Nat) (rest : List Char)
    (hrest : ∀ c, rest.head? = some c → isDigitCh c = false) :
    parseNatToken (natDigits n ++ rest) = some (n, rest) := by
  obtain ⟨e1, e2⟩ := takeWhile_digits_append (natDigits n) rest
    (fun c hc => (digitChars_facts c (natDigits_mem n c hc)).1) hrest
  unfold parseNatToken
  rw [e1, e2]
  rw [if_neg (by simpa using natDigits_ne_nil n)]
  rw [digitsVal_natDigits]

theorem parseIntToken_pos (n : Nat) (rest : List Char)
    (hrest : ∀ c, rest.head? = some c → isDigitCh c = false) :
    parseIntToken (natDigits n ++ rest) = some ((n : Int), rest) := by
  obtain ⟨d, t, he⟩ : ∃ d t, natDigits n = d :: t := by
    cases hnd : natDigits n with
    | nil => exact absurd hnd (natDigits_ne_nil n)
    | cons d t => exact ⟨d, t, rfl⟩
  have hd : d ∈ digitChars := natDigits_mem n d (by rw [he]; exact List.mem_cons_self _ _)
  have hdm : d ≠ '-' := (digitChars_facts d hd).2.2.2.2.2.2.2.2
  rw [he, List.cons_append, parseIntToken, if_neg hdm, ← List.cons_append, ← he,
    parseNatToken_digits n rest hrest]
  rfl

theorem skipWs_cons (c : Char) (l : List Char) (h : jsonWs c = false) :
    skipWs (c :: l) = c :: l := by
  simp [skipWs, List.dropWhile_cons, h]

theorem skipWs_quote (l : List Char) : skipWs ('"' :: l) = '"' :: l := rfl

theorem skipWs_colon (l : List Char) : skipWs (':' :: l) = ':' :: l := rfl

theorem skipWs_comma (l : List Char) : skipWs (',' :: l) = ',' :: l := rfl

theorem skipWs_lbrace (l : List Char) : skipWs ('\x7b' :: l) = '\x7b' :: l := rfl

theorem skipWs_rbrace (l : List Char) : skipWs ('\x7d' :: l) = '\x7d' :: l := rfl

theorem head_not_digit (c0 : Char) (l : List Char) (h : isDigitCh c0 = false) :
    ∀ c, ((c0 :: l).head? = some c) → isDigitCh c = false := by
  intro c hc
  rw [List.head?_cons] at hc
  cases hc
  exact h

set_option maxHeartbeats 1000000 in
theorem parseJ_string (fuel : Nat) (sd : List Char) (rest : List Char)
    (hs : ∀ c ∈ sd, jsonPlainChar c) :
    parseJ (fuel + 1) ('"' :: (sd ++ '"' :: rest)) =
      some (JVal.jstr (String.mk sd), rest) := by
  rw [parseJ]
  simp only [skipWs_quote, parseStringBody_plain sd rest hs]

set_option maxHeartbeats 1000000 in
theorem parseJ_int (fuel : Nat) (n : Nat) (rest : List Char)
    (hrest : ∀ c, rest.head? = some c → isDigitCh c = false) :
    parseJ (fuel + 1) (natDigits n ++ rest) = some (JVal.jnum (n : Int), rest) := by
  obtain ⟨d, t, he⟩ : ∃ d t, natDigits n = d :: t := by
    cases hnd : natDigits n with
    | nil => exact absurd hnd (natDigits_ne_nil n)
    | cons d t => exact ⟨d, t, rfl⟩
  have hd := digitChars_facts d
    (natDigits_mem n d (by rw [he]; exact List.mem_cons_self _ _))
  have hp : parseIntToken (d :: (t ++ rest)) = some ((n : Int), rest) := by
    rw [← List.cons_append, ← he]
    exact parseIntToken_pos n rest hrest
  rw [parseJ, he, List.cons_append, skipWs_cons d (t ++ rest) hd.2.1]
  split
  · rename_i heq
    rw [List.cons.injEq] at heq
    exact absurd heq.1 hd.2.2.1
  · rename_i heq
    rw [List.cons.injEq] at heq
    exact absurd heq.1 hd.2.2.2.1
  · rename_i heq
    rw [List.cons.injEq] at heq
    exact absurd heq.1 hd.2.2.2.2.1
  · rename_i heq
    rw [List.cons.injEq] at heq
    exact absurd heq.1 hd.2.2.2.2.2.1
  · rename_i heq
    rw [List.cons.injEq] at heq
    exact absurd heq.1 hd.2.2.2.2.2.2.1
  · rename_i heq
    rw [List.cons.injEq] at heq
    exact absurd heq.1 hd.2.2.2.2.2.2.2.1
  · rw [hp]

set_option maxHeartbeats 1600000 in
theorem parseMembers_str_comma (fuel : Nat) (kd sd rest : List Char)
    (hk : ∀ c ∈ kd, jsonPlainChar c) (hs : ∀ c ∈ sd, jsonPlainChar c)
    (ms : List (String × JVal)) (r : List Char)
    (hcont : parseMembers (fuel + 1) rest = some (ms, r)) :
    parseMembers (fuel + 2)
        ('"' :: (kd ++ '"' :: ':' :: '"' :: (sd ++ '"' :: ',' :: rest))) =
      some ((String.mk kd, JVal.jstr (String.mk sd)) :: ms, r) := by
  rw [show fuel + 2 = (fuel + 1) + 1 from rfl, parseMembers]
  simp only [skipWs_quote,
    parseStringBody_plain kd (':' :: '"' :: (sd ++ '"' :: ',' :: rest)) hk,
    skipWs_colon, parseJ_string fuel sd (',' :: rest) hs, skipWs_comma, hcont]

set_option maxHeartbeats 1600000 in
theorem parseMembers_int_comma (fuel : Nat) (kd : List Char) (n : Nat)
    (rest : List Char) (hk : ∀ c ∈ kd, jsonPlainChar c)
    (ms : List (String × JVal)) (r : List Char)
    (hcont : parseMembers (fuel + 1) rest = some (ms, r)) :
    parseMembers (fuel + 2)
        ('"' :: (kd ++ '"' :: ':' :: (natDigits n ++ ',' :: rest))) =
      some ((String.mk kd, JVal.jnum (n : Int)) :: ms, r) := by
  rw [show fuel + 2 = (fuel + 1) + 1 from rfl, parseMembers]
  simp only [skipWs_quote,
    parseStringBody_plain kd (':' :: (natDigits n ++ ',' :: rest)) hk,
    skipWs_colon,
    parseJ_int fuel n (',' :: rest) (head_not_digit ',' rest rfl),
    skipWs_comma, hcont]

set_option maxHeartbeats 1600000 in
theorem parseMembers_str_last (fuel : Nat) (kd sd r4 : List Char)
    (hk : ∀ c ∈ kd, jsonPlainChar c) (hs : ∀ c ∈ sd, jsonPlainChar c) :
    parseMembers (fuel + 2)
        ('"' :: (kd ++ '"' :: ':' :: '"' :: (sd ++ '"' :: '\x7d' :: r4))) =
      some ([(String.mk kd, JVal.jstr (String.mk sd))], r4) := by
  rw [show fuel + 2 = (fuel + 1) + 1 from rfl, parseMembers]
  simp only [skipWs_quote,
    parseStringBody_plain kd (':' :: '"' :: (sd ++ '"' :: '\x7d' :: r4)) hk,
    skipWs_colon, parseJ_string fuel sd ('\x7d' :: r4) hs, skipWs_rbrace]

theorem jsonOfPayloadChars_shape (p : EncryptionPayload)
    (halgP : ∀ c ∈ p.alg.data, jsonPlainChar c)
    (hkdfP : ∀ c ∈ p.kdf.data, jsonPlainChar c)
    (hsaltP : ∀ c ∈ p.salt.data, jsonPlainChar c)
    (hivP : ∀ c ∈ p.iv.data, jsonPlainChar c)
    (hctP : ∀ c ∈ p.ct.data, jsonPlainChar c)
    (hit : 0 < p.iterations) :
    jsonOfPayloadChars p =
      '\x7b' :: ('"' :: (['a', 'l', 'g'] ++ '"' :: ':' :: '"' :: (p.alg.data ++ '"' :: ',' :: '"' :: (['k', 'd', 'f'] ++ '"' :: ':' :: '"' :: (p.kdf.data ++ '"' :: ',' :: '"' :: (['s', 'a', 'l', 't'] ++ '"' :: ':' :: '"' :: (p.salt.data ++ '"' :: ',' :: '"' :: (['i', 'v'] ++ '"' :: ':' :: '"' :: (p.iv.data ++ '"' :: ',' :: '"' :: (['i', 't', 'e', 'r', 'a', 't', 'i', 'o', 'n', 's'] ++ '"' :: ':' :: (natDigits p.iterations.natAbs ++ ',' :: '"' :: (['c', 't'] ++ '"' :: ':' :: '"' :: (p.ct.data ++ '"' :: '\x7d' :: []))))))))))))) := by
  have eint : intDecChars p.iterations = natDigits p.iterations.natAbs := by
    unfold intDecChars
    rw [if_neg (by omega)]
  rw [jsonOfPayloadChars, jsonQuoteChars_of_b64 p.alg halgP,
    jsonQuoteChars_of_b64 p.kdf hkdfP, jsonQuoteChars_of_b64 p.salt hsaltP,
    jsonQuoteChars_of_b64 p.iv hivP, jsonQuoteChars_of_b64 p.ct hctP, eint]
  simp

set_option maxHeartbeats 1600000 in
theorem jsonParse_payload (p : EncryptionPayload)
    (halgP : ∀ c ∈ p.alg.data, jsonPlainChar c)
    (hkdfP : ∀ c ∈ p.kdf.data, jsonPlainChar c)
    (hsaltP : ∀ c ∈ p.salt.data, jsonPlainChar c)
    (hivP : ∀ c ∈ p.iv.data, jsonPlainChar c)
    (hctP : ∀ c ∈ p.ct.data, jsonPlainChar c)
    (hit : 0 < p.iterations) :
    jsonParse (jsonOfPayload p) = some (toJVal p) := by
  have eshape := jsonOfPayloadChars_shape p halgP hkdfP hsaltP hivP hctP hit
  have hcast : ((p.iterations.natAbs : Nat) : Int) = p.iterations :=
    Int.natAbs_of_nonneg (le_of_lt hit)
  obtain ⟨f, hf⟩ : ∃ f, (jsonOfPayloadChars p).length + 1 = f + 8 := by
    refine ⟨(jsonOfPayloadChars p).length - 7, ?_⟩
    have h7 : 7 ≤ (jsonOfPayloadChars p).length := by
      rw [eshape]
      simp
    omega
  have h6 : parseMembers (f + 2) ('"' :: (['c', 't'] ++ '"' :: ':' :: '"' :: (p.ct.data ++ '"' :: '\x7d' :: []))) =
      some ([("ct", JVal.jstr p.ct)], []) :=
    parseMembers_str_last f ['c', 't'] p.ct.data [] (by decide) hctP
  have h5 : parseMembers (f + 3) ('"' :: (['i', 't', 'e', 'r', 'a', 't', 'i', 'o', 'n', 's'] ++ '"' :: ':' :: (natDigits p.iterations.natAbs ++ ',' :: '"' :: (['c', 't'] ++ '"' :: ':' :: '"' :: (p.ct.data ++ '"' :: '\x7d' :: []))))) =
      some (("iterations", JVal.jnum ((p.iterations.natAbs : Nat) : Int)) :: [("ct", JVal.jstr p.ct)], []) :=
    parseMembers_int_comma (f + 1) ['i', 't', 'e', 'r', 'a', 't', 'i', 'o', 'n', 's']
      p.iterations.natAbs _ (by decide) _ _ h6
  have h4 : parseMembers (f + 4) ('"' :: (['i', 'v'] ++ '"' :: ':' :: '"' :: (p.iv.data ++ '"' :: ',' :: '"' :: (['i', 't', 'e', 'r', 'a', 't', 'i', 'o', 'n', 's'] ++ '"' :: ':' :: (natDigits p.iterations.natAbs ++ ',' :: '"' :: (['c', 't'] ++ '"' :: ':' :: '"' :: (p.ct.data ++ '"' :: '\x7d' :: []))))))) =
      some (("iv", JVal.jstr p.iv) :: ("iterations", JVal.jnum ((p.iterations.natAbs : Nat) : Int)) :: [("ct", JVal.jstr p.ct)], []) :=
    parseMembers_str_comma (f + 2) ['i', 'v'] p.iv.data _ (by decide) hivP _ _ h5
  have h3 : parseMembers (f + 5) ('"' :: (['s', 'a', 'l', 't'] ++ '"' :: ':' :: '"' :: (p.salt.data ++ '"' :: ',' :: '"' :: (['i', 'v'] ++ '"' :: ':' :: '"' :: (p.iv.data ++ '"' :: ',' :: '"' :: (['i', 't', 'e', 'r', 'a', 't', 'i', 'o', 'n', 's'] ++ '"' :: ':' :: (natDigits p.iterations.natAbs ++ ',' :: '"' :: (['c', 't'] ++ '"' :: ':' :: '"' :: (p.ct.data ++ '"' :: '\x7d' :: []))))))))) =
      some (("salt", JVal.jstr p.salt) :: ("iv", JVal.jstr p.iv) :: ("iterations", JVal.jnum ((p.iterations.natAbs : Nat) : Int)) :: [("ct", JVal.jstr p.ct)], []) :=
    parseMembers_str_comma (f + 3) ['s', 'a', 'l', 't'] p.salt.data _ (by decide)
      hsaltP _ _ h4
  have h2 : parseMembers (f + 6) ('"' :: (['k', 'd', 'f'] ++ '"' :: ':' :: '"' :: (p.kdf.data ++ '"' :: ',' :: '"' :: (['s', 'a', 'l', 't'] ++ '"' :: ':' :: '"' :: (p.salt.data ++ '"' :: ',' :: '"' :: (['i', 'v'] ++ '"' :: ':' :: '"' :: (p.iv.data ++ '"' :: ',' :: '"' :: (['i', 't', 'e', 'r', 'a', 't', 'i', 'o', 'n', 's'] ++ '"' :: ':' :: (natDigits p.iterations.natAbs ++ ',' :: '"' :: (['c', 't'] ++ '"' :: ':' :: '"' :: (p.ct.data ++ '"' :: '\x7d' :: []))))))))))) =
      some (("kdf", JVal.jstr p.kdf) :: ("salt", JVal.jstr p.salt) :: ("iv", JVal.jstr p.iv) :: ("iterations", JVal.jnum ((p.iterations.natAbs : Nat) : Int)) :: [("ct", JVal.jstr p.ct)], []) :=
    parseMembers_str_comma (f + 4) ['k', 'd', 'f'] p.kdf.data _ (by decide)
      hkdfP _ _ h3
  have h1 : parseMembers (f + 7) ('"' :: (['a', 'l', 'g'] ++ '"' :: ':' :: '"' :: (p.alg.data ++ '"' :: ',' :: '"' :: (['k', 'd', 'f'] ++ '"' :: ':' :: '"' :: (p.kdf.data ++ '"' :: ',' :: '"' :: (['s', 'a', 'l', 't'] ++ '"' :: ':' :: '"' :: (p.salt.data ++ '"' :: ',' :: '"' :: (['i', 'v'] ++ '"' :: ':' :: '"' :: (p.iv.data ++ '"' :: ',' :: '"' :: (['i', 't', 'e', 'r', 'a', 't', 'i', 'o', 'n', 's'] ++ '"' :: ':' :: (natDigits p.iterations.natAbs ++ ',' :: '"' :: (['c', 't'] ++ '"' :: ':' :: '"' :: (p.ct.data ++ '"' :: '\x7d' :: []))))))))))))) =
      some (("alg", JVal.jstr p.alg) :: ("kdf", JVal.jstr p.kdf) :: ("salt", JVal.jstr p.salt) :: ("iv", JVal.jstr p.iv) :: ("iterations", JVal.jnum ((p.iterations.natAbs : Nat) : Int)) :: [("ct", JVal.jstr p.ct)], []) :=
    parseMembers_str_comma (f + 5) ['a', 'l', 'g'] p.alg.data _ (by decide)
      halgP _ _ h2
  have hobj : parseJ (f + 8) ('\x7b' :: ('"' :: (['a', 'l', 'g'] ++ '"' :: ':' :: '"' :: (p.alg.data ++ '"' :: ',' :: '"' :: (['k', 'd', 'f'] ++ '"' :: ':' :: '"' :: (p.kdf.data ++ '"' :: ',' :: '"' :: (['s', 'a', 'l', 't'] ++ '"' :: ':' :: '"' :: (p.salt.data ++ '"' :: ',' :: '"' :: (['i', 'v'] ++ '"' :: ':' :: '"' :: (p.iv.data ++ '"' :: ',' :: '"' :: (['i', 't', 'e', 'r', 'a', 't', 'i', 'o', 'n', 's'] ++ '"' :: ':' :: (natDigits p.iterations.natAbs ++ ',' :: '"' :: (['c', 't'] ++ '"' :: ':' :: '"' :: (p.ct.data ++ '"' :: '\x7d' :: [])))))))))))))) = some (toJVal p, []) := by
    rw [parseJ]
    simp only [skipWs_lbrace, skipWs_quote]
    split
    · rename_i heq
      rw [List.cons.injEq] at heq
      exact absurd heq.1 (by decide)
    · rw [h1, hcast]
      rfl
  unfold jsonParse jsonOfPayload
  rw [show (String.mk (jsonOfPayloadChars p)).length = (jsonOfPayloadChars p).length from rfl,
    show (String.mk (jsonOfPayloadChars p)).data = jsonOfPayloadChars p from rfl,
    hf, eshape, hobj]
  rfl

theorem atobStr_btoaStr (s : String) (h : ∀ c ∈ s.data, c.toNat < 256) :
    btoaStr s = some (String.mk (b64EncodeChars (s.data.map Char.toNat))) ∧
    atobStr (String.mk (b64EncodeChars (s.data.map Char.toNat))) = some s := by
  have hall : s.data.all (fun c => decide (c.toNat < 256)) = true := by
    rw [List.all_eq_true]
    intro c hc
    exact decide_eq_true (h c hc)
  constructor
  · unfold btoaStr
    rw [if_pos hall]
  · unfold atobStr
    rw [show (String.mk (b64EncodeChars (s.data.map Char.toNat))).data =
        b64EncodeChars (s.data.map Char.toNat) from rfl]
    rw [b64DecodeChars_encode _ (fun b hb => by
      obtain ⟨c, hc, rfl⟩ := List.mem_map.mp hb
      exact h c hc)]
    show some (String.mk ((s.data.map Char.toNat).map Char.ofNat)) = some s
    rw [List.map_map, show (Char.ofNat ∘ Char.toNat) = fun c => c from
      funext fun c => Char.ofNat_toNat c, List.map_id']

theorem jsonQuoteChars_latin1 (s : String) (h : ∀ c ∈ s.data, jsonPlainChar c) :
    ∀ c ∈ jsonQuoteChars s, c.toNat < 256 := by
  rw [jsonQuoteChars_of_b64 s h]
  intro c hc
  rcases List.mem_cons.mp hc with rfl | hc
  · decide
  · rcases List.mem_append.mp hc with hc | hc
    · exact (h c hc).2.2.2.2.2.2.2.2
    · rw [List.mem_singleton] at hc
      subst hc
      decide

theorem natDigits_latin1 (n : Nat) : ∀ c ∈ natDigits n, c.toNat < 256 := by
  intro c hc
  have hall : ∀ c ∈ digitChars, c.toNat < 256 := by decide
  exact hall c (natDigits_mem n c hc)

set_option maxHeartbeats 800000 in
theorem jsonOfPayloadChars_latin1 (p : EncryptionPayload)
    (halgP : ∀ c ∈ p.alg.data, jsonPlainChar c)
    (hkdfP : ∀ c ∈ p.kdf.data, jsonPlainChar c)
    (hsaltP : ∀ c ∈ p.salt.data, jsonPlainChar c)
    (hivP : ∀ c ∈ p.iv.data, jsonPlainChar c)
    (hctP : ∀ c ∈ p.ct.data, jsonPlainChar c)
    (hit : 0 < p.iterations) :
    ∀ c ∈ jsonOfPayloadChars p, c.toNat < 256 := by
  have eint : intDecChars p.iterations = natDigits p.iterations.natAbs := by
    unfold intDecChars
    rw [if_neg (by omega)]
  have hl1 : ∀ c ∈ ['\x7b', '"', 'a', 'l', 'g', '"', ':'], c.toNat < 256 := by decide
  have hl2 : ∀ c ∈ [',', '"', 'k', 'd', 'f', '"', ':'], c.toNat < 256 := by decide
  have hl3 : ∀ c ∈ [',', '"', 's', 'a', 'l', 't', '"', ':'], c.toNat < 256 := by decide
  have hl4 : ∀ c ∈ [',', '"', 'i', 'v', '"', ':'], c.toNat < 256 := by decide
  have hl5 : ∀ c ∈ [',', '"', 'i', 't', 'e', 'r', 'a', 't', 'i', 'o', 'n', 's',
      '"', ':'], c.toNat < 256 := by decide
  have hl6 : ∀ c ∈ [',', '"', 'c', 't', '"', ':'], c.toNat < 256 := by decide
  have hl7 : ∀ c ∈ ['\x7d'], c.toNat < 256 := by decide
  intro c hc
  rw [jsonOfPayloadChars, eint] at hc
  simp only [List.mem_append] at hc
  rcases hc with
    ((((((((((((hc | hc) | hc) | hc) | hc) | hc) | hc) | hc) | hc) | hc) | hc)
      | hc) | hc)
  · exact hl1 c hc
  · exact jsonQuoteChars_latin1 p.alg halgP c hc
  · exact hl2 c hc
  · exact jsonQuoteChars_latin1 p.kdf hkdfP c hc
  · exact hl3 c hc
  · exact jsonQuoteChars_latin1 p.salt hsaltP c hc
  · exact hl4 c hc
  · exact jsonQuoteChars_latin1 p.iv hivP c hc
  · exact hl5 c hc
  · exact natDigits_latin1 _ c hc
  · exact hl6 c hc
  · exact jsonQuoteChars_latin1 p.ct hctP c hc
  · exact hl7 c hc

theorem atobStr_jsonOfPayload (p : EncryptionPayload) :
    atobStr (jsonOfPayload p) = none := rfl

theorem validatePayload_toJVal (p : EncryptionPayload)
    (halg : p.alg = "AES-GCM") (hkdf : p.kdf = "PBKDF2")
    (hsne : p.salt ≠ "") (hivne : p.iv ≠ "") (hctne : p.ct ≠ "")
    (hit : 0 < p.iterations) :
    validatePayload (toJVal p) = Except.ok (toJVal p) := by
  have t1 : fieldTruthy (toJVal p) "alg" = true := by
    unfold fieldTruthy
    rw [show getField (toJVal p) "alg" = some (JVal.jstr p.alg) from rfl, halg]
    rfl
  have t2 : fieldTruthy (toJVal p) "kdf" = true := by
    unfold fieldTruthy
    rw [show getField (toJVal p) "kdf" = some (JVal.jstr p.kdf) from rfl, hkdf]
    rfl
  have t3 : fieldTruthy (toJVal p) "salt" = true := by
    unfold fieldTruthy
    rw [show getField (toJVal p) "salt" = some (JVal.jstr p.salt) from rfl]
    simp [jTruthy, hsne]
  have t4 : fieldTruthy (toJVal p) "iv" = true := by
    unfold fieldTruthy
    rw [show getField (toJVal p) "iv" = some (JVal.jstr p.iv) from rfl]
    simp [jTruthy, hivne]
  have t5 : fieldTruthy (toJVal p) "iterations" = true := by
    unfold fieldTruthy
    rw [show getField (toJVal p) "iterations" = some (JVal.jnum p.iterations)
      from rfl]
    simp only [jTruthy, bne_iff_ne, ne_eq, decide_eq_true_eq]
    omega
  have t6 : fieldTruthy (toJVal p) "ct" = true := by
    unfold fieldTruthy
    rw [show getField (toJVal p) "ct" = some (JVal.jstr p.ct) from rfl]
    simp [jTruthy, hctne]
  have a1 : algIsSupported (toJVal p) = true := by
    unfold algIsSupported
    rw [show getField (toJVal p) "alg" = some (JVal.jstr p.alg) from rfl, halg]
    rfl
  have k1 : kdfIsSupported (toJVal p) = true := by
    unfold kdfIsSupported
    rw [show getField (toJVal p) "kdf" = some (JVal.jstr p.kdf) from rfl, hkdf]
    rfl
  unfold validatePayload
  rw [if_neg (by simp [t1, t2, t3, t4, t5, t6]), if_neg (by simp [a1]),
    if_neg (by simp [k1])]

/-- Claim C5: codec symmetry.  For every valid envelope (supported
identifiers, base64-text salt/iv/ct, positive iterations),
`encodePayload` produces the Base64-wrapped canonical text, decoding that
text with `parsePayload` returns exactly the envelope's six fields (as the
parsed payload object `toJVal p`), and `parsePayload` applied to the
unwrapped raw JSON text of the same fields returns the same object. -/
theorem codec_symmetry (p : EncryptionPayload)
    (halg : p.alg = "AES-GCM") (hkdf : p.kdf = "PBKDF2")
    (hsalt : ∀ c ∈ p.salt.data, isB64TextChar c)
    (hiv : ∀ c ∈ p.iv.data, isB64TextChar c)
    (hct : ∀ c ∈ p.ct.data, isB64TextChar c)
    (hsne : p.salt ≠ "") (hivne : p.iv ≠ "") (hctne : p.ct ≠ "")
    (hit : 0 < p.iterations) :
    ∃ enc, encodePayload p = some enc ∧
      parsePayloadStr enc = Except.ok (toJVal p) ∧
      parsePayloadStr (jsonOfPayload p) = Except.ok (toJVal p) := by
  have halgP : ∀ c ∈ p.alg.data, jsonPlainChar c := by
    rw [halg]; decide
  have hkdfP : ∀ c ∈ p.kdf.data, jsonPlainChar c := by
    rw [hkdf]; decide
  have hsaltP : ∀ c ∈ p.salt.data, jsonPlainChar c :=
    fun c hc => b64TextChar_plain c (hsalt c hc)
  have hivP : ∀ c ∈ p.iv.data, jsonPlainChar c :=
    fun c hc => b64TextChar_plain c (hiv c hc)
  have hctP : ∀ c ∈ p.ct.data, jsonPlainChar c :=
    fun c hc => b64TextChar_plain c (hct c hc)
  have hlat : ∀ c ∈ (jsonOfPayload p).data, c.toNat < 256 := by
    rw [show (jsonOfPayload p).data = jsonOfPayloadChars p from rfl]
    exact jsonOfPayloadChars_latin1 p halgP hkdfP hsaltP hivP hctP hit
  obtain ⟨henc, hdec⟩ := atobStr_btoaStr (jsonOfPayload p) hlat
  have hjson := jsonParse_payload p halgP hkdfP hsaltP hivP hctP hit
  have hval := validatePayload_toJVal p halg hkdf hsne hivne hctne hit
  refine ⟨String.mk (b64EncodeChars ((jsonOfPayload p).data.map Char.toNat)),
    ?_, ?_, ?_⟩
  · unfold encodePayload
    exact henc
  · unfold parsePayloadStr
    simp only [hdec, hjson, hval]
  · unfold parsePayloadStr
    simp only [atobStr_jsonOfPayload, hjson, hval]

/-- Witness for `codec_symmetry` at a concrete valid envelope. -/
theorem codec_symmetry_witness :
    ∃ enc, encodePayload (EncryptionPayload.mk "AES-GCM" "PBKDF2" "AAAA" "BBBB"
        200000 "CCCC") = some enc ∧
      parsePayloadStr enc = Except.ok (toJVal (EncryptionPayload.mk "AES-GCM"
        "PBKDF2" "AAAA" "BBBB" 200000 "CCCC")) ∧
      parsePayloadStr (jsonOfPayload (EncryptionPayload.mk "AES-GCM" "PBKDF2"
        "AAAA" "BBBB" 200000 "CCCC")) = Except.ok (toJVal (EncryptionPayload.mk
        "AES-GCM" "PBKDF2" "AAAA" "BBBB" 200000 "CCCC")) :=
  codec_symmetry (EncryptionPayload.mk "AES-GCM" "PBKDF2" "AAAA" "BBBB"
      200000 "CCCC") rfl rfl (by decide) (by decide) (by decide)
    (by decide) (by decide) (by decide) (by decide)
